import Mathlib

set_option linter.unusedVariables false
set_option linter.unnecessarySimpa false

/-!
Verification of the matchmaking core of the matchmuse repository.

The embedded code lives in `backend/src/services/`:
`GaleShapleyMatcher.js` (stable-matching solver, preference-list builder and
stability verifier), `MatchmakingEngine.js` (legacy hybrid scoring engine),
`SemanticMatcher.js` (semantic-similarity wrapper with lexical fallbacks) and
`EnhancedMatchmakingEngine.js` (enhanced scoring engine).

JavaScript objects keyed by entity-id strings are modelled as association
lists in insertion order (`Obj`); `undefined` is modelled by `Option`;
JavaScript numbers are modelled by `Rat` (they are ordinary decimal values
here, no float-specific behaviour is relied upon); `Array.prototype.indexOf`
is modelled by `jsIndexOf` (first index, `-1` when absent).
-/

/-- Association list modelling a JavaScript object with string keys:
entries are kept in insertion order, `objSet` updates in place. -/
abbrev Obj (β : Type) := List (String × β)

/-- Property read `m[k]`: value of the first entry carrying the key,
`none` models `undefined`. -/
def objGet {β : Type} : Obj β → String → Option β
  | [], _ => none
  | e :: es, k => if e.1 = k then some e.2 else objGet es k

/-- Property write `m[k] = v`: updates an existing entry in place,
otherwise appends a new entry at the end. -/
def objSet {β : Type} : Obj β → String → β → Obj β
  | [], k, v => [(k, v)]
  | e :: es, k, v => if e.1 = k then (k, v) :: es else e :: objSet es k v

/-- Property removal `delete m[k]`. -/
def objDelete {β : Type} : Obj β → String → Obj β
  | [], _ => []
  | e :: es, k => if e.1 = k then es else e :: objDelete es k

/-- `Object.keys(m)`, in insertion order. -/
def objKeys {β : Type} (m : Obj β) : List String := m.map Prod.fst

/-- JavaScript truthiness of an optional string value:
`undefined` and the empty string are falsy, every other string is truthy. -/
def truthyStr : Option String → Bool
  | none => false
  | some s => s ≠ ""

/-- Index of the first occurrence of `x` in `l`; equals `l.length` when
`x` does not occur. -/
def pos : List String → String → Nat
  | [], _ => 0
  | a :: as, x => if a = x then 0 else pos as x + 1

/-- Element access `l[j]` on an array of strings; the empty string stands in
for `undefined` out of bounds (the loop only reads in-bounds indices). -/
def nth : List String → Nat → String
  | [], _ => ""
  | a :: _, 0 => a
  | _ :: as, j + 1 => nth as j

/-- `Array.prototype.indexOf`: index of the first occurrence, `-1` when absent. -/
def jsIndexOf (l : List String) (x : String) : Int :=
  if x ∈ l then (pos l x : Int) else -1

/-- Iteration cap of the solver: `this.maxIterations = 1000` in the
`GaleShapleyMatcher` constructor. -/
def maxIterations : Nat := 1000

/-- Mutable state of the main loop of `GaleShapleyMatcher.galeShapleyAlgorithm`:
`matches` (proposer id to reviewer id), `reverseMatches` (reviewer id to
proposer id), the queue `unmatchedProposers`, the per-proposer proposal index
`proposerProposalIndex`, and the iteration counter. -/
structure GSState where
  matchesMap : Obj String
  reverseMatches : Obj String
  unmatchedProposers : List String
  propIndex : Obj Nat
  iterations : Nat
deriving Repr, DecidableEq

/-- One iteration of the proposal loop of `galeShapleyAlgorithm`, taken when
the queue is `p :: rest` and the iteration cap has not been hit.  The branch
on `truthyStr` mirrors the source's falsy test `!reverseMatches[reviewerId]`
(which also treats an empty-string holder as "unmatched"); the rank
comparison mirrors `newRank < currentRank` on `indexOf` values. -/
def gsStep (pp rp : Obj (List String)) (st : GSState) (p : String)
    (rest : List String) : GSState :=
  let prefs := (objGet pp p).getD []
  let i := (objGet st.propIndex p).getD 0
  if i < prefs.length then
    let r := nth prefs i
    let pi := objSet st.propIndex p (i + 1)
    match objGet st.reverseMatches r with
    | none =>
        ⟨objSet st.matchesMap p r, objSet st.reverseMatches r p, rest, pi,
          st.iterations + 1⟩
    | some c =>
        if c = "" then
          ⟨objSet st.matchesMap p r, objSet st.reverseMatches r p, rest, pi,
            st.iterations + 1⟩
        else if jsIndexOf ((objGet rp r).getD []) p <
            jsIndexOf ((objGet rp r).getD []) c then
          ⟨objDelete (objSet st.matchesMap p r) c, objSet st.reverseMatches r p,
            rest ++ [c], pi, st.iterations + 1⟩
        else
          ⟨st.matchesMap, st.reverseMatches, p :: rest, pi, st.iterations + 1⟩
  else
    ⟨st.matchesMap, st.reverseMatches, rest, st.propIndex, st.iterations + 1⟩

/-- The `while` loop of `galeShapleyAlgorithm`: runs while the queue is
non-empty and fewer than `maxIterations` iterations have executed.  The fuel
argument is the number of iterations still allowed. -/
def gsLoop (pp rp : Obj (List String)) : Nat → GSState → GSState
  | 0, st => st
  | fuel + 1, st =>
      match st.unmatchedProposers with
      | [] => st
      | p :: rest => gsLoop pp rp fuel (gsStep pp rp st p rest)

/-- Initial loop state: empty maps, queue `Object.keys(proposerPreferences)`,
all proposal indices zero. -/
def initState (pp : Obj (List String)) : GSState :=
  ⟨[], [], objKeys pp, (objKeys pp).foldl (fun m q => objSet m q 0) [], 0⟩

/-- `GaleShapleyMatcher.galeShapleyAlgorithm(proposerPreferences,
reviewerPreferences)`: the final loop state carries the returned `matches`,
`reverseMatches` and `iterations`. -/
def galeShapleyAlgorithm (pp rp : Obj (List String)) : GSState :=
  gsLoop pp rp maxIterations (initState pp)

/-- Outcome of the exception-aware proposal loop: a normal return, or an
uncaught `TypeError` (carrying the loop state at the throw). -/
inductive GSOutcome where
  | ok (st : GSState)
  | typeError (st : GSState)
deriving Repr, DecidableEq

/-- One iteration of the proposal loop with the source's error path kept:
when the proposed reviewer is already (truthily) held and has no entry in
`reviewerPreferences`, the source evaluates
`reviewerPreferences[reviewerId].indexOf(...)` on `undefined` and throws a
`TypeError`; at that point the iteration counter and the proposer's proposal
index have already been incremented and the queue is untouched. -/
def gsStepE (pp rp : Obj (List String)) (st : GSState) (p : String)
    (rest : List String) : GSOutcome :=
  let prefs := (objGet pp p).getD []
  let i := (objGet st.propIndex p).getD 0
  if i < prefs.length then
    let r := nth prefs i
    let pi := objSet st.propIndex p (i + 1)
    match objGet st.reverseMatches r with
    | none =>
        .ok ⟨objSet st.matchesMap p r, objSet st.reverseMatches r p, rest, pi,
          st.iterations + 1⟩
    | some c =>
        if c = "" then
          .ok ⟨objSet st.matchesMap p r, objSet st.reverseMatches r p, rest,
            pi, st.iterations + 1⟩
        else
          match objGet rp r with
          | none =>
              .typeError ⟨st.matchesMap, st.reverseMatches, p :: rest, pi,
                st.iterations + 1⟩
          | some rprefs =>
              if jsIndexOf rprefs p < jsIndexOf rprefs c then
                .ok ⟨objDelete (objSet st.matchesMap p r) c,
                  objSet st.reverseMatches r p, rest ++ [c], pi,
                  st.iterations + 1⟩
              else
                .ok ⟨st.matchesMap, st.reverseMatches, p :: rest, pi,
                  st.iterations + 1⟩
  else
    .ok ⟨st.matchesMap, st.reverseMatches, rest, st.propIndex,
      st.iterations + 1⟩

/-- The `while` loop with the error path kept: a thrown `TypeError` stops
the loop immediately and propagates (there is no `catch` around the loop in
`galeShapleyAlgorithm`). -/
def gsLoopE (pp rp : Obj (List String)) : Nat → GSState → GSOutcome
  | 0, st => .ok st
  | fuel + 1, st =>
      match st.unmatchedProposers with
      | [] => .ok st
      | p :: rest =>
          match gsStepE pp rp st p rest with
          | .ok st2 => gsLoopE pp rp fuel st2
          | .typeError st2 => .typeError st2

/-- `galeShapleyAlgorithm` with the error path kept. -/
def galeShapleyAlgorithmE (pp rp : Obj (List String)) : GSOutcome :=
  gsLoopE pp rp maxIterations (initState pp)

/-- Result of `GaleShapleyMatcher.verifyStability`: the `isStable` flag and
the list of reported blocking pairs (each reported with the constant reason
string `mutual_preference`, which is not modelled). -/
structure StabilityResult where
  isStable : Bool
  blockingPairs : List (String × String)
deriving Repr, DecidableEq

/-- Faithful embedding of `GaleShapleyMatcher.verifyStability(matches,
proposerPreferences, reviewerPreferences)`.  For each entry of `matches` it
scans the strictly preferred prefix of the proposer's list; a pair is
reported when `!matches[preferredReviewerId]` is truthy (note: the source
reads the proposer-keyed object `matches` at a reviewer id here) or when the
looked-up value ranks worse than this proposer in the reviewer's list. -/
def verifyStability (matchesMap : Obj String) (pp rp : Obj (List String)) :
    StabilityResult :=
  let bps := matchesMap.foldl (fun acc e =>
    let p := e.1
    let prefs := (objGet pp p).getD []
    let rank := jsIndexOf prefs e.2
    acc ++ ((prefs.take rank.toNat).filter (fun rr =>
      let rprefs := (objGet rp rr).getD []
      let curRank := jsIndexOf rprefs p
      match objGet matchesMap rr with
      | none => true
      | some v => if v = "" then true else curRank < jsIndexOf rprefs v)).map
        (fun rr => (p, rr))) []
  ⟨bps.length = 0, bps⟩

/-- Specification-level notion: the proposer matched to reviewer `r` by the
proposer-keyed matching `m` (the first entry whose value is `r`). -/
def proposerOf (m : Obj String) (r : String) : Option String :=
  match m.find? (fun e => e.2 = r) with
  | some e => some e.1
  | none => none

/-- Specification-level helper: entity `x` is preferred by the owner of the
list `prefs` over the current assignment `cand`; an unassigned `cand`
(`none`) is always improved upon. -/
def prefersNewB (prefs : List String) (cand : Option String) (x : String) :
    Bool :=
  match cand with
  | none => true
  | some cur => pos prefs x < pos prefs cur

/-- Specification-level blocking pair: `p` and `r` are not matched to each
other, `p` prefers `r` over its assignment and `r` prefers `p` over its
holder (standard definition, independent of the solver's bookkeeping). -/
def blockingB (pp rp : Obj (List String)) (m : Obj String) (p r : String) :
    Bool :=
  objGet m p ≠ some r &&
    prefersNewB ((objGet pp p).getD []) (objGet m p) r &&
    prefersNewB ((objGet rp r).getD []) (proposerOf m r) p

/-- Specification-level well-formedness of a matching for an instance:
duplicate-free keys, both ids drawn from the instance, and injectivity
(no reviewer assigned to two proposers). -/
def matchingWFB (pp rp : Obj (List String)) (m : Obj String) : Bool :=
  (objKeys m).Nodup &&
    m.all (fun e => e.1 ∈ objKeys pp && e.2 ∈ objKeys rp) &&
    m.all (fun e => m.all (fun f => e.2 ≠ f.2 || e.1 = f.1))

/-- Specification-level stability: a well-formed matching with no blocking
pair among the instance's proposers and reviewers. -/
def stableB (pp rp : Obj (List String)) (m : Obj String) : Bool :=
  matchingWFB pp rp m &&
    (objKeys pp).all (fun p => (objKeys rp).all (fun r => !blockingB pp rp m p r))

/-- Well-formed solver instance: duplicate-free key lists, no empty-string
proposer id (empty strings are falsy in the source's holder test), and
complete preference lists (each proposer ranks exactly the reviewers, each
reviewer ranks exactly the proposers). -/
def instanceWFB (pp rp : Obj (List String)) : Bool :=
  (objKeys pp).Nodup && (objKeys rp).Nodup && ("" ∉ objKeys pp) &&
    pp.all (fun e => decide (e.2.Perm (objKeys rp))) &&
    rp.all (fun e => decide (e.2.Perm (objKeys pp)))

/-- An engine scoring call, as used by the preference-list builders: either a
total score or a failure (the `catch` branch in the source).  The score is
`score.totalScore || score` already extracted as a number. -/
abbrev ScoreFn := String → String → Except Unit Rat

/-- The score actually used for a pair by the builders: the computed score,
or the neutral `50` substituted in the `catch` branch. -/
def effScore (score : ScoreFn) (p r : String) : Rat :=
  match score p r with
  | .ok s => s
  | .error _ => 50

/-- Stable insertion (kept after every entry scoring at least as high),
modelling one placement of the stable `Array.prototype.sort` with comparator
`(a, b) => b.score - a.score`. -/
def insertDesc (x : String × Rat) : List (String × Rat) → List (String × Rat)
  | [] => [x]
  | y :: ys => if x.2 ≤ y.2 then y :: insertDesc x ys else x :: y :: ys

/-- Stable sort by score descending: `Array.prototype.sort` (stable per the
ECMAScript spec) with comparator `(a, b) => b.score - a.score`; for such a
total preorder every stable sort produces this unique order. -/
def sortByScoreDesc (l : List (String × Rat)) : List (String × Rat) :=
  l.foldl (fun acc x => insertDesc x acc) []

/-- The scored entries `{id, score}` built for one proposer over all
reviewers, in reviewer order; a failed scoring call contributes the neutral
score `50`. -/
def scoredEntries (score : ScoreFn) (p : String) (others : List String) :
    List (String × Rat) :=
  others.map (fun r => (r, effScore score p r))

/-- Result of a preference-list build: the id-keyed preference lists and the
pairs whose scoring call failed (each such pair is reported through
`logger.warn` in the source; the list models that warning log). -/
structure PrefBuild where
  preferences : Obj (List String)
  fallbackPairs : List (String × String)
deriving Repr, DecidableEq

/-- `GaleShapleyMatcher.generateProposerPreferences(proposers, reviewers,
options)`: for each proposer, score every reviewer (neutral `50` on a
per-pair failure), sort by score descending (stable), and keep the ids. -/
def generateProposerPreferences (proposers reviewers : List String)
    (score : ScoreFn) : PrefBuild :=
  { preferences := proposers.foldl (fun acc p =>
      objSet acc p ((sortByScoreDesc (scoredEntries score p reviewers)).map
        Prod.fst)) []
    fallbackPairs := proposers.foldl (fun acc p =>
      acc ++ (reviewers.filter (fun r => (score p r).isOk = false)).map
        (fun r => (p, r))) [] }

/-- `GaleShapleyMatcher.generateReviewerPreferences(reviewers, proposers,
options)`: same construction with the sides swapped; the scoring call is
still `calculateMatchScore(proposer, reviewer)`. -/
def generateReviewerPreferences (reviewers proposers : List String)
    (score : ScoreFn) : PrefBuild :=
  { preferences := reviewers.foldl (fun acc r =>
      objSet acc r ((sortByScoreDesc (scoredEntries (fun a b => score b a) r
        proposers)).map Prod.fst)) []
    fallbackPairs := reviewers.foldl (fun acc r =>
      acc ++ (proposers.filter (fun p => (score p r).isOk = false)).map
        (fun p => (r, p))) [] }

/-- The ordering claimed by the specification for built preference lists:
score descending, ties broken by entity id ascending. -/
def specTieBreakOrdered (sc : String → Rat) (l : List String) : Prop :=
  l.Pairwise (fun a b => sc a > sc b ∨ (sc a = sc b ∧ a < b))

/-- JavaScript truthiness of an optional numeric value:
`undefined` and `0` are falsy. -/
def truthyNum : Option Rat → Bool
  | none => false
  | some q => q ≠ 0

/-- `Math.round`: rounds to the nearest integer, halves toward positive
infinity. -/
def jsRound (q : Rat) : Int := ⌊q + 1 / 2⌋

/-- `Math.min` on two numbers. -/
def jsMin (a b : Rat) : Rat := if a ≤ b then a else b

/-- `Math.max` on two numbers. -/
def jsMax (a b : Rat) : Rat := if a ≤ b then b else a

/-- `a.includes(b)` on strings: substring containment. -/
def jsIncludes (s sub : String) : Bool := decide (sub.toList <:+: s.toList)

/-- `s.toLowerCase()`: character-wise lowering (as in the source's ASCII
city, skill and tag data). -/
def jsToLower (s : String) : String := ⟨s.data.map Char.toLower⟩

/-- `s.trim()`: strips leading and trailing whitespace. -/
def jsTrim (s : String) : String :=
  ⟨((s.data.dropWhile Char.isWhitespace).reverse.dropWhile
    Char.isWhitespace).reverse⟩

/-- Jaccard index of two string collections viewed as sets (`new Set`):
intersection size over union size (division by zero yields `0`, matching the
unreachable empty-union case). -/
def jaccard (l1 l2 : List String) : Rat :=
  ((l1.toFinset ∩ l2.toFinset).card : Rat) / ((l1.toFinset ∪ l2.toFinset).card : Rat)

/-- An entry of `talent_availability`: a city and an availability window.
Dates are modelled as rational timestamps (the numeric value of
`new Date(...)`). -/
structure AvailEntry where
  city : Option String
  fromDate : Rat
  toDate : Rat
deriving Repr, DecidableEq

/-- Model of the `SemanticMatcher` service: the availability flag and the
external embedding similarity (`generateEmbedding` composed with
`cosineSimilarity`), which is the provider-specific part; the specification
contract for it is a similarity in `[0, 1]`. -/
structure SemanticMatcherState where
  isAvailable : Bool
  textSim : String → String → Rat

namespace SemanticMatcher

/-- `SemanticMatcher.calculateTextSimilarityFallback`: neutral `10` on an
empty text, otherwise the rounded, `0..20`-scaled Jaccard index of the
lowercased whitespace-separated word sets. -/
def calculateTextSimilarityFallback (t1 t2 : String) : Rat :=
  if t1 = "" ∨ t2 = "" then 10
  else (jsRound (jaccard ((jsToLower t1).split Char.isWhitespace)
    ((jsToLower t2).split Char.isWhitespace) * 20) : Int)

/-- `SemanticMatcher.calculateStyleSimilarityFallback`: neutral `10` on a
missing or empty tag list, otherwise the rounded, `0..20`-scaled Jaccard
index of the lowercased tag sets. -/
def calculateStyleSimilarityFallback (tags1 tags2 : List String) : Rat :=
  if tags1.length = 0 ∨ tags2.length = 0 then 10
  else (jsRound (jaccard (tags1.map jsToLower) (tags2.map jsToLower)
    * 20) : Int)

/-- `SemanticMatcher.calculateTextSimilarity`: provider similarity scaled to
`0..20` and rounded; the lexical fallback when the provider is unavailable
(a provider error takes the same fallback path). -/
def calculateTextSimilarity (sm : SemanticMatcherState) (t1 t2 : String) :
    Rat :=
  if sm.isAvailable then (jsRound (sm.textSim t1 t2 * 20) : Int)
  else calculateTextSimilarityFallback t1 t2

/-- `SemanticMatcher.calculateStyleSimilarity`: joins the tag lists with
`', '` and rescales the already `0..20`-scaled text similarity by another
factor of `20` (the source's double scaling); lexical fallback when the
provider is unavailable. -/
def calculateStyleSimilarity (sm : SemanticMatcherState)
    (tags1 tags2 : List String) : Rat :=
  if sm.isAvailable then
    (jsRound (calculateTextSimilarity sm (String.intercalate ", " tags1)
      (String.intercalate ", " tags2) * 20) : Int)
  else calculateStyleSimilarityFallback tags1 tags2

end SemanticMatcher

namespace Engine

/-- Gig fields read by the legacy `MatchmakingEngine` scoring path.
`start_date` is modelled as a rational timestamp. -/
structure Gig where
  city : Option String
  budget : Option Rat
  category : Option String
  expectation_level : Option String
  start_date : Option Rat
  style_tags : Option (List String)
  title : String
  brief_text : Option String
deriving Repr

/-- Talent fields read by the legacy `MatchmakingEngine` scoring path
(after `enrichCandidateData`, so the list-valued fields are arrays). -/
structure Talent where
  city : Option String
  budget_min : Option Rat
  budget_max : Option Rat
  categories : List String
  skills : List String
  experience_years : Option Rat
  availability : List AvailEntry
  style_tags : Option (List String)
  name : String
  portfolio_titles : List String
deriving Repr

/-- The `regions` table of `MatchmakingEngine.isSameRegion`. -/
def regions (c : String) : List String :=
  if c = "Mumbai" then ["Pune", "Nashik", "Thane"]
  else if c = "Delhi" then ["Gurgaon", "Noida", "Faridabad"]
  else if c = "Bangalore" then ["Mysore", "Chennai"]
  else if c = "Chennai" then ["Bangalore", "Hyderabad"]
  else if c = "Hyderabad" then ["Chennai", "Bangalore"]
  else if c = "Kolkata" then ["Howrah", "Durgapur"]
  else if c = "Goa" then ["Mumbai", "Pune"]
  else []

/-- `MatchmakingEngine.isSameRegion(city1, city2)`; `city2` may be absent
(an absent city matches nothing). -/
def isSameRegion (c1 : String) (c2 : Option String) : Bool :=
  match c2 with
  | some t => (regions c1).contains t || (regions t).contains c1
  | none => false

/-- `MatchmakingEngine.scoreLocation` (0-15 points). -/
def scoreLocation (gigCity talentCity : Option String)
    (availability : List AvailEntry) : Rat :=
  match gigCity with
  | none => 15
  | some g =>
    if g = "" ∨ g = "Remote" then 15
    else if talentCity = some g then 15
    else if availability.any (fun a => a.city = some g) then 12
    else if isSameRegion g talentCity then 10
    else 5

/-- `MatchmakingEngine.scoreBudget` (0-15 points); missing or zero data
scores the neutral `10`. -/
def scoreBudget (gigBudget talentMin talentMax : Option Rat) : Rat :=
  if truthyNum gigBudget = false ∨ truthyNum talentMin = false ∨
      truthyNum talentMax = false then 10
  else
    let b := gigBudget.getD 0
    let mn := talentMin.getD 0
    let mx := talentMax.getD 0
    if mn ≤ b ∧ b ≤ mx then 15
    else
      let ratio := b / mx
      if 9 / 10 ≤ ratio ∧ ratio ≤ 11 / 10 then 12
      else if 8 / 10 ≤ ratio ∧ ratio ≤ 12 / 10 then 8
      else if 7 / 10 ≤ ratio ∧ ratio ≤ 13 / 10 then 5
      else 3

/-- The `skillMap` table of `MatchmakingEngine.getRelevantSkills`. -/
def getRelevantSkills (category : Option String) : List String :=
  match category with
  | some "Photography" =>
      ["photography", "camera", "lighting", "portrait", "fashion", "wedding"]
  | some "Direction" => ["direction", "filmmaking", "cinematography", "storytelling"]
  | some "Styling" => ["styling", "fashion", "wardrobe", "makeup", "hair"]
  | some "Content Writing" => ["writing", "content", "copywriting", "blogging"]
  | some "Video Editing" => ["editing", "post-production", "final cut", "premiere"]
  | some "Animation" => ["animation", "motion graphics", "3d", "after effects"]
  | _ => []

/-- `MatchmakingEngine.scoreSkills` (0-15 points): 10 for category
membership plus up to 5 for case-insensitive skill-substring overlap. -/
def scoreSkills (gigCategory : Option String)
    (talentCategories talentSkills : List String) : Rat :=
  let base : Rat := if talentCategories.any (fun c => some c = gigCategory)
    then 10 else 0
  if talentSkills.length > 0 then
    let relevant := getRelevantSkills gigCategory
    let overlap := (talentSkills.filter (fun sk =>
      relevant.any (fun rel => jsIncludes (jsToLower sk) (jsToLower rel)))).length
    base + jsMin ((overlap : Rat) * 2) 5
  else base

/-- The `experienceMap` band table shared by `scoreExperience` and
`getCandidates`. -/
def experienceBand (lvl : Option String) : Rat × Rat :=
  match lvl with
  | some "basic" => (0, 2)
  | some "intermediate" => (2, 5)
  | some "pro" => (5, 8)
  | some "top-tier" => (8, 15)
  | some "expert" => (15, 999)
  | _ => (0, 999)

/-- JavaScript `x >= q` where `x` may be `undefined` (then false). -/
def jsGE (o : Option Rat) (q : Rat) : Bool :=
  match o with
  | some v => q ≤ v
  | none => false

/-- JavaScript `x <= q` where `x` may be `undefined` (then false). -/
def jsLE (o : Option Rat) (q : Rat) : Bool :=
  match o with
  | some v => v ≤ q
  | none => false

/-- JavaScript `x > q` where `x` may be `undefined` (then false). -/
def jsGT (o : Option Rat) (q : Rat) : Bool :=
  match o with
  | some v => q < v
  | none => false

/-- `MatchmakingEngine.scoreExperience` (0-10 points, in fact always 5, 8 or
10). -/
def scoreExperience (lvl : Option String) (years : Option Rat) : Rat :=
  let band := experienceBand lvl
  if jsGE years band.1 && jsLE years band.2 then 10
  else if jsGT years band.2 then 8
  else if jsGE years (band.1 - 1) then 5
  else 5

/-- `MatchmakingEngine.scoreAvailability` (0-5 points, in fact 2, 3 or 5). -/
def scoreAvailability (startDate : Option Rat)
    (availability : List AvailEntry) : Rat :=
  match startDate with
  | none => 3
  | some s =>
    if availability.length = 0 then 3
    else if availability.any (fun a => a.fromDate ≤ s ∧ s ≤ a.toDate) then 5
    else 2

/-- The `total` of `MatchmakingEngine.calculateRuleBasedScore`: the sum of
the five factor scores, capped at 60. -/
def calculateRuleBasedScore (g : Gig) (t : Talent) : Rat :=
  jsMin (scoreLocation g.city t.city t.availability +
    scoreBudget g.budget t.budget_min t.budget_max +
    scoreSkills g.category t.categories t.skills +
    scoreExperience g.expectation_level t.experience_years +
    scoreAvailability g.start_date t.availability) 60

/-- `MatchmakingEngine.scoreStyleSimilarity` (0-20 points; neutral 10 when
either tag list is absent). -/
def scoreStyleSimilarity (sm : SemanticMatcherState)
    (gigTags talentTags : Option (List String)) : Rat :=
  match gigTags, talentTags with
  | some ts1, some ts2 => SemanticMatcher.calculateStyleSimilarity sm ts1 ts2
  | _, _ => 10

/-- `MatchmakingEngine.scoreSemanticMatch`: text similarity of the gig text
(title and brief) against the talent text (name, skills, portfolio titles). -/
def scoreSemanticMatch (sm : SemanticMatcherState) (g : Gig) (t : Talent) :
    Rat :=
  let gigText := g.title ++ " " ++ g.brief_text.getD ""
  let talentText := t.name ++ " " ++ String.intercalate " " t.skills ++ " " ++
    String.intercalate " " t.portfolio_titles
  SemanticMatcher.calculateTextSimilarity sm gigText talentText

/-- The `total` of `MatchmakingEngine.calculateSemanticScore`: style
similarity plus semantic match, capped at 40. -/
def calculateSemanticScore (sm : SemanticMatcherState) (g : Gig)
    (t : Talent) : Rat :=
  jsMin (scoreStyleSimilarity sm g.style_tags t.style_tags +
    scoreSemanticMatch sm g t) 40

/-- The `totalScore` of `MatchmakingEngine.calculateMatchScore`: rule-based
total times the rule weight (0.6) plus semantic total times the semantic
weight (0.4), rounded to two decimal places. -/
def calculateMatchScore (sm : SemanticMatcherState) (g : Gig) (t : Talent) :
    Rat :=
  (jsRound ((calculateRuleBasedScore g t * (6 / 10) +
    calculateSemanticScore sm g t * (4 / 10)) * 100) : Int) / 100

end Engine

namespace Enhanced

/-- Gig fields read by `EnhancedMatchmakingEngine`; `requirements` and
`style_tags` appear at their call sites as `... || []`, so they are modelled
as plain lists. -/
structure Gig where
  location : Option String
  budget : Option Rat
  requirements : List String
  expectation_level : Option String
  style_tags : List String
  description : Option String
deriving Repr

/-- Talent fields read by `EnhancedMatchmakingEngine`; in this engine's
schema `availability` is a flag, not a window list. -/
structure Talent where
  city : Option String
  budget_min : Option Rat
  budget_max : Option Rat
  skills : List String
  experience_years : Option Rat
  availability : Bool
  style_tags : List String
  rating : Option Rat
  bio : Option String
deriving Repr

/-- The `commonCities` list of `calculateLocationCompatibility`. -/
def commonCities : List String :=
  ["mumbai", "delhi", "bangalore", "chennai", "kolkata", "hyderabad"]

/-- `EnhancedMatchmakingEngine.calculateLocationCompatibility`
(a factor in `[0, 1]`). -/
def calculateLocationCompatibility (gigLocation talentLocation :
    Option String) : Rat :=
  if truthyStr gigLocation = false ∨ truthyStr talentLocation = false then 1 / 2
  else
    let g := jsTrim (jsToLower (gigLocation.getD ""))
    let t := jsTrim (jsToLower (talentLocation.getD ""))
    if g = t then 1
    else if jsIncludes g t ∨ jsIncludes t g then 4 / 5
    else if g ∈ commonCities ∧ t ∈ commonCities then 3 / 5
    else 3 / 10

/-- `EnhancedMatchmakingEngine.calculateBudgetAlignment` (a factor in
`[0, 1]`; the unused average/daily-rate locals of the source are omitted). -/
def calculateBudgetAlignment (gigBudget talentMin talentMax : Option Rat) :
    Rat :=
  if truthyNum gigBudget = false ∨ truthyNum talentMin = false ∨
      truthyNum talentMax = false then 1 / 2
  else
    let b := gigBudget.getD 0
    let mn := talentMin.getD 0
    let mx := talentMax.getD 0
    if mn ≤ b ∧ b ≤ mx then 1
    else if mn * (4 / 5) ≤ b ∧ b ≤ mx * (6 / 5) then 4 / 5
    else if mn * (3 / 5) ≤ b ∧ b ≤ mx * (7 / 5) then 3 / 5
    else 3 / 10

/-- `EnhancedMatchmakingEngine.calculateSkillsMatch` on array inputs (the
call sites pass `gig.requirements || []` and `talent.skills || []`). -/
def calculateSkillsMatch (requiredSkills talentSkills : List String) : Rat :=
  if requiredSkills.length = 0 then 1 / 2
  else
    let ms := requiredSkills.filter (fun req => talentSkills.any (fun tal =>
      jsIncludes (jsToLower tal) (jsToLower req) ∨
        jsIncludes (jsToLower req) (jsToLower tal)))
    (ms.length : Rat) / (requiredSkills.length : Rat)

/-- `parseInt` applied to a number: truncation toward zero. -/
def jsParseIntOfNum (q : Rat) : Int := if q < 0 then -(⌊-q⌋) else ⌊q⌋

/-- `EnhancedMatchmakingEngine.calculateExperienceMatch` (a factor in
`[0, 1]`; zero or missing years take the neutral `0.5` branch because `0`
is falsy). -/
def calculateExperienceMatch (expectedLevel : Option String)
    (experienceYears : Option Rat) : Rat :=
  if truthyStr expectedLevel = false ∨ truthyNum experienceYears = false then
    1 / 2
  else
    let years := jsParseIntOfNum (experienceYears.getD 0)
    let lvl := jsToLower (expectedLevel.getD "")
    if lvl = "beginner" then
      if years ≤ 2 then 1 else if years ≤ 4 then 7 / 10 else 2 / 5
    else if lvl = "intermediate" then
      if 2 ≤ years ∧ years ≤ 5 then 1
      else if 1 ≤ years ∧ years ≤ 7 then 4 / 5
      else 1 / 2
    else if lvl = "expert" then
      if 5 ≤ years then 1 else if 3 ≤ years then 4 / 5 else 2 / 5
    else 1 / 2

/-- `EnhancedMatchmakingEngine.calculateStyleSimilarity` on array inputs
(a factor in `[0, 1]`). -/
def calculateStyleSimilarity (gigStyles talentStyles : List String) : Rat :=
  if gigStyles.length = 0 ∨ talentStyles.length = 0 then 1 / 2
  else
    let ms := gigStyles.filter (fun g => talentStyles.any (fun t =>
      jsIncludes (jsToLower t) (jsToLower g) ∨
        jsIncludes (jsToLower g) (jsToLower t)))
    (ms.length : Rat) / jsMax (gigStyles.length : Rat) (talentStyles.length : Rat)

/-- `EnhancedMatchmakingEngine.calculateRuleBasedScore`: weighted factor sum
(20 + 20 + 15 + 15 + 10 + 10 + 10 points), capped at 100 by
`Math.min(100, score)`; a missing or zero rating defaults to 4.0. -/
def calculateRuleBasedScore (g : Gig) (t : Talent) : Rat :=
  jsMin 100
    (calculateLocationCompatibility g.location t.city * 20 +
      calculateBudgetAlignment g.budget t.budget_min t.budget_max * 20 +
      calculateSkillsMatch g.requirements t.skills * 15 +
      calculateExperienceMatch g.expectation_level t.experience_years * 15 +
      (if t.availability then (1 : Rat) else 0) * 10 +
      calculateStyleSimilarity g.style_tags t.style_tags * 10 +
      (if truthyNum t.rating then t.rating.getD 0 else 4) / 5 * 10)

/-- `EnhancedMatchmakingEngine.calculateSemanticScore`: `0` when the
provider reports unavailable, otherwise up to 20 points per part, capped at
40.  The style part hands the joined tag strings to the `SemanticMatcher`
(whose array-specific steps do not apply to strings; the call is modelled as
the text similarity of the joined strings), the text part uses the
`SemanticMatcher` text similarity of description and bio; each result is
scaled by a further factor of 20 as in the source. -/
def calculateSemanticScore (g : Gig) (t : Talent)
    (sm : SemanticMatcherState) : Rat :=
  if sm.isAvailable = false then 0
  else
    let stylePart : Rat :=
      if g.style_tags.length > 0 ∧ t.style_tags.length > 0 then
        SemanticMatcher.calculateTextSimilarity sm
          (String.intercalate ", " g.style_tags)
          (String.intercalate ", " t.style_tags) * 20
      else 0
    let textPart : Rat :=
      if truthyStr g.description && truthyStr t.bio then
        SemanticMatcher.calculateTextSimilarity sm (g.description.getD "")
          (t.bio.getD "") * 20
      else 0
    jsMin 40 (stylePart + textPart)

/-- `EnhancedMatchmakingEngine.calculateEnhancedMatchScore`: rule score times
0.6 plus semantic score times 0.4, clamped by
`Math.min(100, Math.max(0, totalScore))`. -/
def calculateEnhancedMatchScore (g : Gig) (t : Talent)
    (sm : SemanticMatcherState) : Rat :=
  jsMin 100 (jsMax 0 (calculateRuleBasedScore g t * (6 / 10) +
    calculateSemanticScore g t sm * (4 / 10)))

/-- The integer score attached to a match entry by `findEnhancedMatches`:
`Math.round(score)`. -/
def matchEntryScore (g : Gig) (t : Talent) (sm : SemanticMatcherState) :
    Int :=
  jsRound (calculateEnhancedMatchScore g t sm)

end Enhanced

section ObjLemmas

variable {β : Type}

theorem objGet_set_self (m : Obj β) (k : String) (v : β) :
    objGet (objSet m k v) k = some v := by
  induction m with
  | nil => simp [objSet, objGet]
  | cons e es ih =>
      by_cases h : e.1 = k
      · simp [objSet, objGet, h]
      · simp [objSet, objGet, h, ih]

theorem objGet_set_ne (m : Obj β) (k : String) (v : β) (q : String)
    (h : q ≠ k) : objGet (objSet m k v) q = objGet m q := by
  have hk : k ≠ q := Ne.symm h
  induction m with
  | nil => simp [objSet, objGet, hk]
  | cons e es ih =>
      by_cases he : e.1 = k
      · subst he
        simp [objSet, objGet, hk]
      · by_cases hq : e.1 = q
        · simp [objSet, objGet, he, hq, h]
        · simp [objSet, objGet, he, hq, ih]

theorem objDelete_sublist (m : Obj β) (k : String) :
    (objDelete m k).Sublist m := by
  induction m with
  | nil => simp [objDelete]
  | cons e es ih =>
      by_cases h : e.1 = k
      · simpa [objDelete, h] using List.sublist_cons_self e es
      · simpa [objDelete, h] using List.Sublist.cons₂ e ih

theorem objGet_delete_ne (m : Obj β) (k q : String) (h : q ≠ k) :
    objGet (objDelete m k) q = objGet m q := by
  induction m with
  | nil => simp [objDelete]
  | cons e es ih =>
      by_cases he : e.1 = k
      · subst he
        have : e.1 ≠ q := Ne.symm h
        simp [objDelete, objGet, this]
      · simp [objDelete, objGet, he, ih]

theorem objGet_eq_none (m : Obj β) (k : String) (h : k ∉ objKeys m) :
    objGet m k = none := by
  induction m with
  | nil => simp [objGet]
  | cons e es ih =>
      simp only [objKeys, List.map_cons, List.mem_cons] at h
      push_neg at h
      have h1 : e.1 ≠ k := Ne.symm h.1
      exact (by simp [objGet, h1, ih (by simpa [objKeys] using h.2)])

theorem mem_objKeys_of_objGet (m : Obj β) (k : String) (v : β)
    (h : objGet m k = some v) : k ∈ objKeys m := by
  by_contra hk
  rw [objGet_eq_none m k hk] at h
  exact Option.noConfusion h

theorem objGet_delete_self (m : Obj β) (k : String)
    (hnd : (objKeys m).Nodup) : objGet (objDelete m k) k = none := by
  induction m with
  | nil => simp [objDelete, objGet]
  | cons e es ih =>
      simp only [objKeys, List.map_cons, List.nodup_cons] at hnd
      by_cases h : e.1 = k
      · have : k ∉ objKeys es := by
          rw [← h]
          simpa [objKeys] using hnd.1
        simpa [objDelete, h] using objGet_eq_none es k this
      · simp [objDelete, objGet, h, ih (by simpa [objKeys] using hnd.2)]

theorem objKeys_set_mem (m : Obj β) (k : String) (v : β)
    (h : k ∈ objKeys m) : objKeys (objSet m k v) = objKeys m := by
  induction m with
  | nil => simp [objKeys] at h
  | cons e es ih =>
      by_cases he : e.1 = k
      · simp [objSet, objKeys, he]
      · simp only [objKeys, List.map_cons, List.mem_cons] at h
        rcases h with h | h
        · exact absurd h.symm he
        · simpa [objSet, objKeys, he] using ih (by simpa [objKeys] using h)

theorem objKeys_set_not_mem (m : Obj β) (k : String) (v : β)
    (h : k ∉ objKeys m) : objKeys (objSet m k v) = objKeys m ++ [k] := by
  induction m with
  | nil => simp [objSet, objKeys]
  | cons e es ih =>
      simp only [objKeys, List.map_cons, List.mem_cons] at h
      push_neg at h
      have h1 : e.1 ≠ k := Ne.symm h.1
      simpa [objSet, objKeys, h1] using ih (by simpa [objKeys] using h.2)

theorem objKeys_set_nodup (m : Obj β) (k : String) (v : β)
    (hnd : (objKeys m).Nodup) : (objKeys (objSet m k v)).Nodup := by
  by_cases h : k ∈ objKeys m
  · rw [objKeys_set_mem m k v h]; exact hnd
  · rw [objKeys_set_not_mem m k v h]
    simpa [List.nodup_append] using ⟨hnd, h⟩

theorem objKeys_delete_nodup (m : Obj β) (k : String)
    (hnd : (objKeys m).Nodup) : (objKeys (objDelete m k)).Nodup :=
  List.Nodup.sublist (List.Sublist.map Prod.fst (objDelete_sublist m k)) hnd

theorem objGet_of_mem (m : Obj β) (e : String × β) (he : e ∈ m)
    (hnd : (objKeys m).Nodup) : objGet m e.1 = some e.2 := by
  induction m with
  | nil => simp at he
  | cons f fs ih =>
      simp only [objKeys, List.map_cons, List.nodup_cons] at hnd
      rcases List.mem_cons.mp he with h | h
      · subst h; simp [objGet]
      · have hne : f.1 ≠ e.1 := by
          intro hh
          exact hnd.1 (hh ▸ List.mem_map_of_mem Prod.fst h)
        simp [objGet, hne, ih h (by simpa [objKeys] using hnd.2)]

theorem mem_of_objGet (m : Obj β) (k : String) (v : β)
    (h : objGet m k = some v) : (k, v) ∈ m := by
  induction m with
  | nil => simp [objGet] at h
  | cons e es ih =>
      by_cases he : e.1 = k
      · simp only [objGet, he, if_pos] at h
        have : e = (k, v) := by
          obtain ⟨e1, e2⟩ := e
          simp only at he
          simp only [Option.some.injEq] at h
          simp [he, h]
        exact this ▸ List.mem_cons_self e es
      · simp only [objGet, he, if_false] at h
        exact List.mem_cons_of_mem _ (ih h)

end ObjLemmas

section PosLemmas

theorem pos_lt_length {l : List String} {x : String} (h : x ∈ l) :
    pos l x < l.length := by
  induction l with
  | nil => simp at h
  | cons a as ih =>
      by_cases ha : a = x
      · simp [pos, ha]
      · have : x ∈ as := by
          rcases List.mem_cons.mp h with hh | hh
          · exact absurd hh.symm ha
          · exact hh
        simpa [pos, ha] using ih this

theorem pos_le_length (l : List String) (x : String) : pos l x ≤ l.length := by
  induction l with
  | nil => simp [pos]
  | cons a as ih =>
      by_cases ha : a = x
      · simp [pos, ha]
      · simpa [pos, ha] using ih

theorem nth_pos {l : List String} {x : String} (h : x ∈ l) :
    nth l (pos l x) = x := by
  induction l with
  | nil => simp at h
  | cons a as ih =>
      by_cases ha : a = x
      · simp [pos, nth, ha]
      · have : x ∈ as := by
          rcases List.mem_cons.mp h with hh | hh
          · exact absurd hh.symm ha
          · exact hh
        simpa [pos, nth, ha] using ih this

theorem nth_mem {l : List String} {j : Nat} (h : j < l.length) :
    nth l j ∈ l := by
  induction l generalizing j with
  | nil => simp at h
  | cons a as ih =>
      cases j with
      | zero => simp [nth]
      | succ j =>
          simp only [List.length_cons, Nat.succ_lt_succ_iff] at h
          simpa [nth] using Or.inr (ih h)

theorem pos_nth {l : List String} (hnd : l.Nodup) {j : Nat}
    (h : j < l.length) : pos l (nth l j) = j := by
  induction l generalizing j with
  | nil => simp at h
  | cons a as ih =>
      rcases List.nodup_cons.mp hnd with ⟨hna, hnd2⟩
      cases j with
      | zero => simp [pos, nth]
      | succ j =>
          simp only [List.length_cons, Nat.succ_lt_succ_iff] at h
          have hmem : nth as j ∈ as := nth_mem h
          have ha : a ≠ nth as j := fun hh => hna (hh ▸ hmem)
          simp [pos, nth, ha, ih hnd2 h]

theorem pos_inj {l : List String} {x y : String} (hx : x ∈ l) (hy : y ∈ l)
    (h : pos l x = pos l y) : x = y := by
  have h1 := nth_pos hx
  have h2 := nth_pos hy
  rw [h] at h1
  exact h1.symm.trans h2

theorem jsIndexOf_of_mem {l : List String} {x : String} (h : x ∈ l) :
    jsIndexOf l x = (pos l x : Int) := by
  simp [jsIndexOf, h]

theorem jsIndexOf_lt_iff {l : List String} {x y : String} (hx : x ∈ l)
    (hy : y ∈ l) : jsIndexOf l x < jsIndexOf l y ↔ pos l x < pos l y := by
  rw [jsIndexOf_of_mem hx, jsIndexOf_of_mem hy]
  exact_mod_cast Iff.rfl

end PosLemmas

section LoopBasics

theorem gsStep_iterations (pp rp : Obj (List String)) (st : GSState)
    (p : String) (rest : List String) :
    (gsStep pp rp st p rest).iterations = st.iterations + 1 := by
  simp only [gsStep]
  split
  · split
    · rfl
    · split
      · rfl
      · split
        · rfl
        · rfl
  · rfl

theorem gsLoop_exit (pp rp : Obj (List String)) (N : Nat) :
    ∀ (fuel : Nat) (st : GSState), st.iterations + fuel = N →
      (gsLoop pp rp fuel st).unmatchedProposers = [] ∨
        (gsLoop pp rp fuel st).iterations = N := by
  intro fuel
  induction fuel with
  | zero =>
      intro st h
      right
      simpa [gsLoop] using h
  | succ fuel ih =>
      intro st h
      rw [gsLoop]
      cases hu : st.unmatchedProposers with
      | nil => exact Or.inl hu
      | cons p rest =>
          exact ih (gsStep pp rp st p rest)
            (by rw [gsStep_iterations]; omega)

theorem gsLoop_iterations_le (pp rp : Obj (List String)) (N : Nat) :
    ∀ (fuel : Nat) (st : GSState), st.iterations + fuel = N →
      (gsLoop pp rp fuel st).iterations ≤ N := by
  intro fuel
  induction fuel with
  | zero =>
      intro st h
      simp only [gsLoop]
      omega
  | succ fuel ih =>
      intro st h
      rw [gsLoop]
      cases hu : st.unmatchedProposers with
      | nil => dsimp only; omega
      | cons p rest =>
          exact ih (gsStep pp rp st p rest)
            (by rw [gsStep_iterations]; omega)

end LoopBasics

theorem gsStep_congr (pp pp2 rp rp2 : Obj (List String))
    (hpp : ∀ q, objGet pp q = objGet pp2 q)
    (hrp : ∀ q, objGet rp q = objGet rp2 q) (st : GSState) (p : String)
    (rest : List String) : gsStep pp rp st p rest = gsStep pp2 rp2 st p rest := by
  simp only [gsStep, hpp, hrp]

theorem gsLoop_congr (pp pp2 rp rp2 : Obj (List String))
    (hpp : ∀ q, objGet pp q = objGet pp2 q)
    (hrp : ∀ q, objGet rp q = objGet rp2 q) :
    ∀ (fuel : Nat) (st : GSState), gsLoop pp rp fuel st = gsLoop pp2 rp2 fuel st := by
  intro fuel
  induction fuel with
  | zero => intro st; rfl
  | succ fuel ih =>
      intro st
      rw [gsLoop, gsLoop]
      cases st.unmatchedProposers with
      | nil => rfl
      | cons p rest =>
          dsimp only
          rw [gsStep_congr pp pp2 rp rp2 hpp hrp, ih]

theorem gsStepE_ok (pp rp : Obj (List String))
    (hcover : ∀ e ∈ pp, ∀ r ∈ e.2, (objGet rp r).isSome = true)
    (st : GSState) (p : String) (rest : List String) :
    gsStepE pp rp st p rest = GSOutcome.ok (gsStep pp rp st p rest) := by
  simp only [gsStepE, gsStep]
  split
  · cases hpp : objGet pp p with
    | none =>
        rename_i hi
        rw [hpp] at hi
        simp at hi
    | some l =>
        rename_i hi
        rw [hpp] at hi
        simp only [Option.getD_some] at hi
        simp only [Option.getD_some]
        have hrmem : nth l ((objGet st.propIndex p).getD 0) ∈ l := nth_mem hi
        have hsome := hcover (p, l) (mem_of_objGet pp p l hpp)
          (nth l ((objGet st.propIndex p).getD 0)) hrmem
        cases hheld : objGet st.reverseMatches
            (nth l ((objGet st.propIndex p).getD 0)) with
        | none => rfl
        | some c =>
            dsimp only
            split
            · rfl
            · cases hrp : objGet rp (nth l ((objGet st.propIndex p).getD 0)) with
              | none => rw [hrp] at hsome; simp at hsome
              | some rprefs =>
                  simp only [Option.getD_some]
                  split <;> rfl
  · rfl

theorem gsLoopE_ok (pp rp : Obj (List String))
    (hcover : ∀ e ∈ pp, ∀ r ∈ e.2, (objGet rp r).isSome = true) :
    ∀ (fuel : Nat) (st : GSState),
      gsLoopE pp rp fuel st = GSOutcome.ok (gsLoop pp rp fuel st) := by
  intro fuel
  induction fuel with
  | zero => intro st; rfl
  | succ fuel ih =>
      intro st
      rw [gsLoopE, gsLoop]
      cases st.unmatchedProposers with
      | nil => rfl
      | cons p rest =>
          dsimp only
          rw [gsStepE_ok pp rp hcover st p rest]
          exact ih _

/-- C5 counterexample: on proposer preferences `{A: [R], B: [R, S]}` with an
empty reviewer-preference map, the source's loop throws an uncaught
`TypeError` at its second iteration (`B` proposes to `R`, which is held by
`A` and has no `reviewerPreferences` entry, so `.indexOf` is applied to
`undefined`): the run stops by exception — not by the claimed terminal
conditions — while proposer `B` is still unmatched with an unexhausted
preference list (index 1 of 2) and the iteration count 2 is far below the
cap, and no matching is returned at all. -/
theorem gs_typeerror_counterexample :
    galeShapleyAlgorithmE [("A", ["R"]), ("B", ["R", "S"])] [] =
      GSOutcome.typeError ⟨[("A", "R")], [("R", "A")], ["B"],
        [("A", 1), ("B", 1)], 2⟩ ∧
    (1 : Nat) < ((objGet ([("A", ["R"]), ("B", ["R", "S"])] :
      Obj (List String)) "B").getD []).length ∧
    (2 : Nat) < maxIterations := by
  decide

/-- C5 (amended): the loop can also stop by an uncaught `TypeError` (when a
proposer proposes to a truthily held reviewer that has no entry in the
reviewer-preference map, `reviewerPreferences[reviewerId].indexOf` is
applied to `undefined`).  On every input whose proposer preference lists
name only reviewers present in the reviewer-preference map, no exception
occurs: the exception-aware loop returns normally, stopping either with the
unmatched queue empty (no proposer left unmatched with unexhausted
preferences) or at exactly the configured `maxIterations` cap; in both
cases the loop state with its partial `matches` object is returned (the cap
case only emits a warning log in the source), and the iteration count never
exceeds the cap. -/
theorem gs_loop_terminates (pp rp : Obj (List String))
    (hcover : ∀ e ∈ pp, ∀ r ∈ e.2, (objGet rp r).isSome = true) :
    galeShapleyAlgorithmE pp rp =
      GSOutcome.ok (galeShapleyAlgorithm pp rp) ∧
    ((galeShapleyAlgorithm pp rp).unmatchedProposers = [] ∨
      (galeShapleyAlgorithm pp rp).iterations = maxIterations) ∧
    (galeShapleyAlgorithm pp rp).iterations ≤ maxIterations :=
  ⟨gsLoopE_ok pp rp hcover maxIterations (initState pp),
    gsLoop_exit pp rp maxIterations maxIterations (initState pp) rfl,
    gsLoop_iterations_le pp rp maxIterations maxIterations (initState pp) rfl⟩

/-- Witness for the amended C5 at a complete concrete instance. -/
theorem gs_loop_terminates_witness :
    (∀ e ∈ ([("P1", ["R1", "R2"]), ("P2", ["R1", "R2"])] :
        Obj (List String)), ∀ r ∈ e.2,
      (objGet ([("R1", ["P1", "P2"]), ("R2", ["P1", "P2"])] :
        Obj (List String)) r).isSome = true) ∧
    (galeShapleyAlgorithmE [("P1", ["R1", "R2"]), ("P2", ["R1", "R2"])]
        [("R1", ["P1", "P2"]), ("R2", ["P1", "P2"])] =
      GSOutcome.ok (galeShapleyAlgorithm
        [("P1", ["R1", "R2"]), ("P2", ["R1", "R2"])]
        [("R1", ["P1", "P2"]), ("R2", ["P1", "P2"])]) ∧
    ((galeShapleyAlgorithm [("P1", ["R1", "R2"]), ("P2", ["R1", "R2"])]
        [("R1", ["P1", "P2"]), ("R2", ["P1", "P2"])]).unmatchedProposers =
          [] ∨
      (galeShapleyAlgorithm [("P1", ["R1", "R2"]), ("P2", ["R1", "R2"])]
        [("R1", ["P1", "P2"]), ("R2", ["P1", "P2"])]).iterations =
          maxIterations) ∧
    (galeShapleyAlgorithm [("P1", ["R1", "R2"]), ("P2", ["R1", "R2"])]
        [("R1", ["P1", "P2"]), ("R2", ["P1", "P2"])]).iterations ≤
          maxIterations) :=
  ⟨by decide,
    gs_loop_terminates [("P1", ["R1", "R2"]), ("P2", ["R1", "R2"])]
      [("R1", ["P1", "P2"]), ("R2", ["P1", "P2"])] (by decide)⟩

/-- C9: the solver is deterministic and does not depend on the map
representation beyond key insertion order: two preference inputs with the
same key lists and the same lookups produce identical results (in
particular, two runs on identical inputs agree). -/
theorem gs_deterministic (pp pp2 rp rp2 : Obj (List String))
    (hkeys : objKeys pp = objKeys pp2)
    (hpp : ∀ q, objGet pp q = objGet pp2 q)
    (hrp : ∀ q, objGet rp q = objGet rp2 q) :
    galeShapleyAlgorithm pp rp = galeShapleyAlgorithm pp2 rp2 := by
  unfold galeShapleyAlgorithm
  rw [gsLoop_congr pp pp2 rp rp2 hpp hrp]
  unfold initState
  rw [hkeys]

/-- Witness for C9 at a concrete instance: the reviewer-preference object
given in a different entry order (same lookups) yields the same result. -/
theorem gs_deterministic_witness :
    galeShapleyAlgorithm [("P1", ["R1"])] [("R1", ["P1"]), ("R2", ["P1"])] =
      galeShapleyAlgorithm [("P1", ["R1"])] [("R2", ["P1"]), ("R1", ["P1"])] :=
  gs_deterministic _ _ _ _ rfl (fun _ => rfl) (fun q => by
    by_cases h1 : q = "R1"
    · subst h1; simp [objGet]
    · by_cases h2 : q = "R2"
      · subst h2; simp [objGet]
      · simp [objGet, Ne.symm h1, Ne.symm h2])

/-- C1 (the solver/verifier pair on a concrete complete instance): the
solver output is a genuinely stable matching (`stableB`), yet
`verifyStability` reports `isStable = false` with a spurious blocking pair,
because it reads the proposer-keyed `matches` object at a reviewer id
instead of `reverseMatches`. -/
theorem verifyStability_misreports_stable_matching :
    stableB [("P1", ["R1", "R2"]), ("P2", ["R1", "R2"])]
        [("R1", ["P1", "P2"]), ("R2", ["P1", "P2"])]
        (galeShapleyAlgorithm [("P1", ["R1", "R2"]), ("P2", ["R1", "R2"])]
          [("R1", ["P1", "P2"]), ("R2", ["P1", "P2"])]).matchesMap = true ∧
    (verifyStability
        (galeShapleyAlgorithm [("P1", ["R1", "R2"]), ("P2", ["R1", "R2"])]
          [("R1", ["P1", "P2"]), ("R2", ["P1", "P2"])]).matchesMap
        [("P1", ["R1", "R2"]), ("P2", ["R1", "R2"])]
        [("R1", ["P1", "P2"]), ("R2", ["P1", "P2"])]).isStable = false ∧
    (verifyStability
        (galeShapleyAlgorithm [("P1", ["R1", "R2"]), ("P2", ["R1", "R2"])]
          [("R1", ["P1", "P2"]), ("R2", ["P1", "P2"])]).matchesMap
        [("P1", ["R1", "R2"]), ("P2", ["R1", "R2"])]
        [("R1", ["P1", "P2"]), ("R2", ["P1", "P2"])]).blockingPairs =
      [("P2", "R1")] := by decide

/-- C4 (the specification's classic rejection-chain scenario): the solver
returns exactly the expected stable matching `P1 - R2`, `P2 - R1` (and that
matching is stable per `stableB`), but `verifyStability` reports
`isStable = false` with the spurious blocking pair `(P1, R1)` instead of the
claimed `isStable = true` with zero blocking pairs. -/
theorem classic_instance_solver_and_verifier :
    (galeShapleyAlgorithm [("P1", ["R1", "R2"]), ("P2", ["R1", "R2"])]
        [("R1", ["P2", "P1"]), ("R2", ["P1", "P2"])]).matchesMap =
      [("P2", "R1"), ("P1", "R2")] ∧
    stableB [("P1", ["R1", "R2"]), ("P2", ["R1", "R2"])]
        [("R1", ["P2", "P1"]), ("R2", ["P1", "P2"])]
        [("P2", "R1"), ("P1", "R2")] = true ∧
    (verifyStability [("P2", "R1"), ("P1", "R2")]
        [("P1", ["R1", "R2"]), ("P2", ["R1", "R2"])]
        [("R1", ["P2", "P1"]), ("R2", ["P1", "P2"])]).isStable = false ∧
    (verifyStability [("P2", "R1"), ("P1", "R2")]
        [("P1", ["R1", "R2"]), ("P2", ["R1", "R2"])]
        [("R1", ["P2", "P1"]), ("R2", ["P1", "P2"])]).blockingPairs =
      [("P1", "R1")] := by decide

/-- Counterexample for C6: with equal pairwise scores the built preference
list keeps the reviewers' input order (`Array.prototype.sort` is stable) and
does not order tied entries by id ascending as the specification claims. -/
theorem prefs_tie_break_counterexample :
    objGet (generateProposerPreferences ["P"] ["R2", "R1"]
        (fun _ _ => .ok 10)).preferences "P" = some ["R2", "R1"] ∧
    ¬ specTieBreakOrdered (fun _ => 10) ["R2", "R1"] := by
  constructor
  · decide
  · intro h
    rcases h with _ | ⟨h1, _⟩
    rcases h1 "R1" (by decide) with h | ⟨_, h⟩
    · exact absurd h (by decide)
    · refine absurd h ?_
      rw [String.lt_iff_toList_lt]
      decide

/-- Counterexample for C10: with the empty string as a proposer id (falsy in
the source's `!reverseMatches[reviewerId]` test) the returned matching
assigns the single reviewer `R` to both proposers, so the forward and
reverse maps are not mutual inverses and the matched reviewer ids are not
pairwise distinct. -/
theorem gs_empty_id_counterexample :
    (galeShapleyAlgorithm [("", ["R"]), ("P", ["R"])]
        [("R", ["", "P"])]).matchesMap = [("", "R"), ("P", "R")] ∧
    ¬ ((galeShapleyAlgorithm [("", ["R"]), ("P", ["R"])]
        [("R", ["", "P"])]).matchesMap.map Prod.snd).Nodup := by decide

/-- Structural invariant of the proposal loop (holds for any reviewer
preferences once the proposer keys are duplicate-free and no proposer id is
the empty string): the queue holds distinct unmatched proposers of the
instance, `matches` and `reverseMatches` are mutual inverses, every matched
proposer is matched to the entry just before its proposal index, and no
proposal index passes the end of the list. -/
structure InvL (pp : Obj (List String)) (st : GSState) : Prop where
  u_sub : ∀ p ∈ st.unmatchedProposers, p ∈ objKeys pp
  u_nd : st.unmatchedProposers.Nodup
  u_none : ∀ p ∈ st.unmatchedProposers, objGet st.matchesMap p = none
  m_keys_nd : (objKeys st.matchesMap).Nodup
  m_sub : ∀ p r, objGet st.matchesMap p = some r → p ∈ objKeys pp
  inv : ∀ p r, objGet st.matchesMap p = some r ↔
    objGet st.reverseMatches r = some p
  m_last : ∀ p r, objGet st.matchesMap p = some r →
    ∃ i, (objGet st.propIndex p).getD 0 = i + 1 ∧
      i < ((objGet pp p).getD []).length ∧ nth ((objGet pp p).getD []) i = r
  idx_le : ∀ p, (objGet st.propIndex p).getD 0 ≤ ((objGet pp p).getD []).length

theorem invL_accept (pp : Obj (List String)) (st : GSState) (p r : String)
    (i : Nat) (rest : List String) (h : InvL pp st)
    (hpP : p ∈ objKeys pp) (hpnone : objGet st.matchesMap p = none)
    (hpnotrest : p ∉ rest) (hrestnd : rest.Nodup)
    (hrest_sub : ∀ q ∈ rest, q ∈ objKeys pp)
    (hrest_none : ∀ q ∈ rest, objGet st.matchesMap q = none)
    (hlt : i < ((objGet pp p).getD []).length)
    (hr : nth ((objGet pp p).getD []) i = r)
    (hrev : objGet st.reverseMatches r = none) :
    InvL pp ⟨objSet st.matchesMap p r, objSet st.reverseMatches r p, rest,
      objSet st.propIndex p (i + 1), st.iterations + 1⟩ where
  u_sub := hrest_sub
  u_nd := hrestnd
  u_none := fun q hq => by
    dsimp only
    have hqp : q ≠ p := fun e => hpnotrest (e ▸ hq)
    rw [objGet_set_ne st.matchesMap p r q hqp]
    exact hrest_none q hq
  m_keys_nd := objKeys_set_nodup st.matchesMap p r h.m_keys_nd
  m_sub := fun q s hqs => by
    dsimp only at hqs
    by_cases hq : p = q
    · exact hq ▸ hpP
    · rw [objGet_set_ne st.matchesMap p r q (Ne.symm hq)] at hqs
      exact h.m_sub q s hqs
  inv := fun q s => by
    dsimp only
    by_cases hq : p = q
    · subst hq
      rw [objGet_set_self]
      by_cases hs : r = s
      · subst hs
        rw [objGet_set_self]
        simp
      · rw [objGet_set_ne st.reverseMatches r p s (Ne.symm hs)]
        constructor
        · intro he
          exact absurd (Option.some.inj he) hs
        · intro he
          have h2 := (h.inv p s).mpr he
          rw [hpnone] at h2
          exact Option.noConfusion h2
    · rw [objGet_set_ne st.matchesMap p r q (Ne.symm hq)]
      by_cases hs : r = s
      · subst hs
        rw [objGet_set_self]
        constructor
        · intro he
          have h2 := (h.inv q r).mp he
          rw [hrev] at h2
          exact Option.noConfusion h2
        · intro he
          exact absurd (Option.some.inj he) hq
      · rw [objGet_set_ne st.reverseMatches r p s (Ne.symm hs)]
        exact h.inv q s
  m_last := fun q s hqs => by
    dsimp only at hqs ⊢
    by_cases hq : p = q
    · subst hq
      rw [objGet_set_self] at hqs
      refine ⟨i, ?_, hlt, ?_⟩
      · rw [objGet_set_self]
        rfl
      · rw [hr]
        exact Option.some.inj hqs
    · rw [objGet_set_ne st.matchesMap p r q (Ne.symm hq)] at hqs
      obtain ⟨j, hj1, hj2, hj3⟩ := h.m_last q s hqs
      refine ⟨j, ?_, hj2, hj3⟩
      rw [objGet_set_ne st.propIndex p (i + 1) q (Ne.symm hq)]
      exact hj1
  idx_le := fun q => by
    dsimp only
    by_cases hq : p = q
    · subst hq
      rw [objGet_set_self]
      simpa using hlt
    · rw [objGet_set_ne st.propIndex p (i + 1) q (Ne.symm hq)]
      exact h.idx_le q

theorem invL_displace (pp : Obj (List String)) (st : GSState) (p r c : String)
    (i : Nat) (rest : List String) (h : InvL pp st)
    (hpP : p ∈ objKeys pp) (hpnone : objGet st.matchesMap p = none)
    (hpnotrest : p ∉ rest) (hrestnd : rest.Nodup)
    (hrest_sub : ∀ q ∈ rest, q ∈ objKeys pp)
    (hrest_none : ∀ q ∈ rest, objGet st.matchesMap q = none)
    (hlt : i < ((objGet pp p).getD []).length)
    (hr : nth ((objGet pp p).getD []) i = r)
    (hrev : objGet st.reverseMatches r = some c) :
    InvL pp ⟨objDelete (objSet st.matchesMap p r) c,
      objSet st.reverseMatches r p, rest ++ [c],
      objSet st.propIndex p (i + 1), st.iterations + 1⟩ := by
  have hcm : objGet st.matchesMap c = some r := (h.inv c r).mpr hrev
  have hcP : c ∈ objKeys pp := h.m_sub c r hcm
  have hcp : c ≠ p := by
    intro e
    rw [e, hpnone] at hcm
    exact Option.noConfusion hcm
  have hcrest : c ∉ rest := by
    intro hc
    rw [hrest_none c hc] at hcm
    exact Option.noConfusion hcm
  have hksnd : (objKeys (objSet st.matchesMap p r)).Nodup :=
    objKeys_set_nodup st.matchesMap p r h.m_keys_nd
  exact
  { u_sub := fun q hq => by
      rcases List.mem_append.mp hq with hq | hq
      · exact hrest_sub q hq
      · exact (List.mem_singleton.mp hq) ▸ hcP
    u_nd := by
      rw [List.nodup_append]
      exact ⟨hrestnd, List.nodup_singleton c,
        fun a ha hb => hcrest ((List.mem_singleton.mp hb) ▸ ha)⟩
    u_none := fun q hq => by
      dsimp only
      rcases List.mem_append.mp hq with hq | hq
      · have hqc : q ≠ c := fun e => hcrest (e ▸ hq)
        have hqp : q ≠ p := fun e => hpnotrest (e ▸ hq)
        rw [objGet_delete_ne _ c q hqc, objGet_set_ne st.matchesMap p r q hqp]
        exact hrest_none q hq
      · rw [List.mem_singleton.mp hq]
        exact objGet_delete_self _ c hksnd
    m_keys_nd := objKeys_delete_nodup _ c hksnd
    m_sub := fun q s hqs => by
      dsimp only at hqs
      by_cases hqc : c = q
      · rw [← hqc, objGet_delete_self _ c hksnd] at hqs
        exact Option.noConfusion hqs
      · rw [objGet_delete_ne _ c q (Ne.symm hqc)] at hqs
        by_cases hqp : p = q
        · exact hqp ▸ hpP
        · rw [objGet_set_ne st.matchesMap p r q (Ne.symm hqp)] at hqs
          exact h.m_sub q s hqs
    inv := fun q s => by
      dsimp only
      by_cases hqc : c = q
      · subst hqc
        rw [objGet_delete_self _ c hksnd]
        by_cases hs : r = s
        · subst hs
          rw [objGet_set_self]
          constructor
          · intro he
            exact Option.noConfusion he
          · intro he
            exact absurd (Option.some.inj he) (Ne.symm hcp)
        · rw [objGet_set_ne st.reverseMatches r p s (Ne.symm hs)]
          constructor
          · intro he
            exact Option.noConfusion he
          · intro he
            have h2 := (h.inv c s).mpr he
            rw [hcm] at h2
            exact absurd (Option.some.inj h2) hs
      · rw [objGet_delete_ne _ c q (Ne.symm hqc)]
        by_cases hqp : p = q
        · subst hqp
          rw [objGet_set_self]
          by_cases hs : r = s
          · subst hs
            rw [objGet_set_self]
            simp
          · rw [objGet_set_ne st.reverseMatches r p s (Ne.symm hs)]
            constructor
            · intro he
              exact absurd (Option.some.inj he) hs
            · intro he
              have h2 := (h.inv p s).mpr he
              rw [hpnone] at h2
              exact Option.noConfusion h2
        · rw [objGet_set_ne st.matchesMap p r q (Ne.symm hqp)]
          by_cases hs : r = s
          · subst hs
            rw [objGet_set_self]
            constructor
            · intro he
              have h2 := (h.inv q r).mp he
              rw [hrev] at h2
              exact absurd (Option.some.inj h2) hqc
            · intro he
              exact absurd (Option.some.inj he) hqp
          · rw [objGet_set_ne st.reverseMatches r p s (Ne.symm hs)]
            exact h.inv q s
    m_last := fun q s hqs => by
      dsimp only at hqs ⊢
      by_cases hqc : c = q
      · rw [← hqc, objGet_delete_self _ c hksnd] at hqs
        exact Option.noConfusion hqs
      · rw [objGet_delete_ne _ c q (Ne.symm hqc)] at hqs
        by_cases hqp : p = q
        · subst hqp
          rw [objGet_set_self] at hqs
          refine ⟨i, ?_, hlt, ?_⟩
          · rw [objGet_set_self]
            rfl
          · rw [hr]
            exact Option.some.inj hqs
        · rw [objGet_set_ne st.matchesMap p r q (Ne.symm hqp)] at hqs
          obtain ⟨j, hj1, hj2, hj3⟩ := h.m_last q s hqs
          refine ⟨j, ?_, hj2, hj3⟩
          rw [objGet_set_ne st.propIndex p (i + 1) q (Ne.symm hqp)]
          exact hj1
    idx_le := fun q => by
      dsimp only
      by_cases hq : p = q
      · subst hq
        rw [objGet_set_self]
        simpa using hlt
      · rw [objGet_set_ne st.propIndex p (i + 1) q (Ne.symm hq)]
        exact h.idx_le q }

theorem invL_reject (pp : Obj (List String)) (st : GSState) (p : String)
    (i : Nat) (rest : List String) (h : InvL pp st)
    (hu : st.unmatchedProposers = p :: rest)
    (hpnone : objGet st.matchesMap p = none)
    (hlt : i < ((objGet pp p).getD []).length) :
    InvL pp ⟨st.matchesMap, st.reverseMatches, p :: rest,
      objSet st.propIndex p (i + 1), st.iterations + 1⟩ where
  u_sub := fun q hq => h.u_sub q (by rw [hu]; exact hq)
  u_nd := hu ▸ h.u_nd
  u_none := fun q hq => h.u_none q (by rw [hu]; exact hq)
  m_keys_nd := h.m_keys_nd
  m_sub := h.m_sub
  inv := h.inv
  m_last := fun q s hqs => by
    dsimp only at hqs ⊢
    by_cases hq : p = q
    · rw [← hq, hpnone] at hqs
      exact Option.noConfusion hqs
    · obtain ⟨j, hj1, hj2, hj3⟩ := h.m_last q s hqs
      refine ⟨j, ?_, hj2, hj3⟩
      rw [objGet_set_ne st.propIndex p (i + 1) q (Ne.symm hq)]
      exact hj1
  idx_le := fun q => by
    dsimp only
    by_cases hq : p = q
    · subst hq
      rw [objGet_set_self]
      simpa using hlt
    · rw [objGet_set_ne st.propIndex p (i + 1) q (Ne.symm hq)]
      exact h.idx_le q

theorem invL_step (pp rp : Obj (List String))
    (hE : "" ∉ objKeys pp) (st : GSState) (p : String) (rest : List String)
    (hu : st.unmatchedProposers = p :: rest) (h : InvL pp st) :
    InvL pp (gsStep pp rp st p rest) := by
  have hpmem : p ∈ st.unmatchedProposers := hu ▸ List.mem_cons_self p rest
  have hpP : p ∈ objKeys pp := h.u_sub p hpmem
  have hpnone : objGet st.matchesMap p = none := h.u_none p hpmem
  have hnd : (p :: rest).Nodup := hu ▸ h.u_nd
  have hpnotrest : p ∉ rest := (List.nodup_cons.mp hnd).1
  have hrestnd : rest.Nodup := (List.nodup_cons.mp hnd).2
  have hrest_sub : ∀ q ∈ rest, q ∈ objKeys pp := fun q hq =>
    h.u_sub q (hu ▸ List.mem_cons_of_mem p hq)
  have hrest_none : ∀ q ∈ rest, objGet st.matchesMap q = none := fun q hq =>
    h.u_none q (hu ▸ List.mem_cons_of_mem p hq)
  simp only [gsStep]
  by_cases hlt : (objGet st.propIndex p).getD 0 < ((objGet pp p).getD []).length
  case neg =>
    rw [if_neg hlt]
    exact { u_sub := hrest_sub, u_nd := hrestnd, u_none := hrest_none,
            m_keys_nd := h.m_keys_nd, m_sub := h.m_sub, inv := h.inv,
            m_last := h.m_last, idx_le := h.idx_le }
  case pos =>
  rw [if_pos hlt]
  cases hrev : objGet st.reverseMatches
      (nth ((objGet pp p).getD []) ((objGet st.propIndex p).getD 0)) with
  | none =>
      exact invL_accept pp st p _ _ rest h hpP hpnone hpnotrest hrestnd
        hrest_sub hrest_none hlt rfl hrev
  | some c =>
      dsimp only
      by_cases hc : c = ""
      · rw [if_pos hc]
        subst hc
        exact absurd (h.m_sub _ _ ((h.inv _ _).mpr hrev)) hE
      · rw [if_neg hc]
        by_cases hrank : jsIndexOf ((objGet rp
              (nth ((objGet pp p).getD []) ((objGet st.propIndex p).getD 0))).getD []) p <
            jsIndexOf ((objGet rp
              (nth ((objGet pp p).getD []) ((objGet st.propIndex p).getD 0))).getD []) c
        · rw [if_pos hrank]
          exact invL_displace pp st p _ c _ rest h hpP hpnone hpnotrest hrestnd
            hrest_sub hrest_none hlt rfl hrev
        · rw [if_neg hrank]
          exact invL_reject pp st p _ rest h hu hpnone hlt

theorem initIdx_zero (l : List String) :
    ∀ (m : Obj Nat), (∀ x, (objGet m x).getD 0 = 0) →
      ∀ q, (objGet (l.foldl (fun m x => objSet m x 0) m) q).getD 0 = 0 := by
  induction l with
  | nil => intro m hm q; exact hm q
  | cons a as ih =>
      intro m hm q
      refine ih (objSet m a 0) ?_ q
      intro x
      by_cases hx : a = x
      · rw [← hx, objGet_set_self]
        rfl
      · rw [objGet_set_ne m a 0 x (Ne.symm hx)]
        exact hm x

theorem invL_init (pp : Obj (List String)) (hP : (objKeys pp).Nodup) :
    InvL pp (initState pp) where
  u_sub := fun p hp => hp
  u_nd := hP
  u_none := fun p _ => rfl
  m_keys_nd := List.nodup_nil
  m_sub := fun p r h => Option.noConfusion h
  inv := fun p r => by
    constructor
    · intro h; exact Option.noConfusion h
    · intro h; exact Option.noConfusion h
  m_last := fun p r h => Option.noConfusion h
  idx_le := fun p => by
    have := initIdx_zero (objKeys pp) [] (fun x => rfl) p
    simp only [initState]
    rw [this]
    exact Nat.zero_le _

theorem invL_loop (pp rp : Obj (List String)) (hE : "" ∉ objKeys pp) :
    ∀ (fuel : Nat) (st : GSState), InvL pp st → InvL pp (gsLoop pp rp fuel st) := by
  intro fuel
  induction fuel with
  | zero => intro st h; exact h
  | succ fuel ih =>
      intro st h
      rw [gsLoop]
      cases hu : st.unmatchedProposers with
      | nil => exact h
      | cons p rest =>
          exact ih (gsStep pp rp st p rest) (invL_step pp rp hE st p rest hu h)

theorem invL_final (pp rp : Obj (List String)) (hP : (objKeys pp).Nodup)
    (hE : "" ∉ objKeys pp) : InvL pp (galeShapleyAlgorithm pp rp) :=
  invL_loop pp rp hE maxIterations (initState pp) (invL_init pp hP)

theorem values_nodup (m : Obj String) (hnd : (objKeys m).Nodup)
    (hinj : ∀ q q2 s, objGet m q = some s → objGet m q2 = some s → q = q2) :
    (m.map Prod.snd).Nodup := by
  induction m with
  | nil => exact List.nodup_nil
  | cons e es ih =>
      simp only [objKeys, List.map_cons, List.nodup_cons] at hnd
      have hgete : objGet (e :: es) e.1 = some e.2 := by simp [objGet]
      have hes : ∀ q s, objGet es q = some s → objGet (e :: es) q = some s := by
        intro q s hq
        have hqe : e.1 ≠ q := by
          intro hh
          exact hnd.1 (hh ▸ List.mem_map_of_mem Prod.fst
            (mem_of_objGet es q s hq))
        simp [objGet, hqe, hq]
      rw [List.map_cons, List.nodup_cons]
      constructor
      · intro hmem
        obtain ⟨f, hf, hfv⟩ := List.mem_map.mp hmem
        have hgf : objGet es f.1 = some f.2 :=
          objGet_of_mem es f hf (by simpa [objKeys] using hnd.2)
        have hgf2 : objGet (e :: es) f.1 = some e.2 := by
          rw [← hfv]
          exact hes f.1 f.2 hgf
        have := hinj e.1 f.1 e.2 hgete hgf2
        exact hnd.1 (this ▸ List.mem_map_of_mem Prod.fst hf)
      · exact ih (by simpa [objKeys] using hnd.2)
          (fun q q2 s hq hq2 => hinj q q2 s (hes q s hq) (hes q2 s hq2))

/-- C10 (amended): provided the proposer ids are duplicate-free and none of
them is the empty string (the source's falsy holder test misreads an
empty-string proposer as "unmatched"), the solver's forward and reverse maps
are mutual inverses, so the returned matching is one-to-one: no reviewer is
held by two proposers and the matched reviewer ids are pairwise distinct. -/
theorem gs_matching_one_to_one (pp rp : Obj (List String))
    (hP : (objKeys pp).Nodup) (hE : "" ∉ objKeys pp) :
    (∀ p r, objGet (galeShapleyAlgorithm pp rp).matchesMap p = some r ↔
      objGet (galeShapleyAlgorithm pp rp).reverseMatches r = some p) ∧
    ((galeShapleyAlgorithm pp rp).matchesMap.map Prod.snd).Nodup := by
  have h := invL_final pp rp hP hE
  refine ⟨h.inv, values_nodup _ h.m_keys_nd ?_⟩
  intro q q2 s hq hq2
  have h1 := (h.inv q s).mp hq
  have h2 := (h.inv q2 s).mp hq2
  rw [h1] at h2
  exact Option.some.inj h2

/-- Witness for the amended C10 at a concrete instance with two proposers
competing for one reviewer. -/
theorem gs_matching_one_to_one_witness :
    (∀ p r, objGet (galeShapleyAlgorithm [("P1", ["R"]), ("P2", ["R"])]
        [("R", ["P2", "P1"])]).matchesMap p = some r ↔
      objGet (galeShapleyAlgorithm [("P1", ["R"]), ("P2", ["R"])]
        [("R", ["P2", "P1"])]).reverseMatches r = some p) ∧
    ((galeShapleyAlgorithm [("P1", ["R"]), ("P2", ["R"])]
        [("R", ["P2", "P1"])]).matchesMap.map Prod.snd).Nodup :=
  gs_matching_one_to_one [("P1", ["R"]), ("P2", ["R"])] [("R", ["P2", "P1"])]
    (by decide) (by decide)

theorem exists_objGet_of_mem_keys {β : Type} (m : Obj β) (k : String)
    (h : k ∈ objKeys m) : ∃ v, objGet m k = some v := by
  induction m with
  | nil => simp [objKeys] at h
  | cons e es ih =>
      by_cases he : e.1 = k
      · exact ⟨e.2, by simp [objGet, he]⟩
      · simp only [objKeys, List.map_cons, List.mem_cons] at h
        rcases h with h | h
        · exact absurd h.symm he
        · obtain ⟨v, hv⟩ := ih (by simpa [objKeys] using h)
          exact ⟨v, by simp [objGet, he, hv]⟩

theorem stableB_keys_nd {pp rp : Obj (List String)} {m : Obj String}
    (h : stableB pp rp m = true) : (objKeys m).Nodup := by
  simp only [stableB, matchingWFB, Bool.and_eq_true, decide_eq_true_eq] at h
  exact h.1.1.1

theorem stableB_mem {pp rp : Obj (List String)} {m : Obj String}
    (h : stableB pp rp m = true) :
    ∀ q s, objGet m q = some s → q ∈ objKeys pp ∧ s ∈ objKeys rp := by
  intro q s hq
  have hmem := mem_of_objGet m q s hq
  simp only [stableB, matchingWFB, Bool.and_eq_true, List.all_eq_true,
    decide_eq_true_eq] at h
  exact h.1.1.2 (q, s) hmem

theorem stableB_inj {pp rp : Obj (List String)} {m : Obj String}
    (h : stableB pp rp m = true) :
    ∀ q q2 s, objGet m q = some s → objGet m q2 = some s → q = q2 := by
  intro q q2 s hq hq2
  have hmem := mem_of_objGet m q s hq
  have hmem2 := mem_of_objGet m q2 s hq2
  simp only [stableB, matchingWFB, Bool.and_eq_true, List.all_eq_true,
    Bool.or_eq_true, decide_eq_true_eq] at h
  rcases h.1.2 (q, s) hmem (q2, s) hmem2 with hne | heq
  · exact absurd rfl hne
  · exact heq

theorem stableB_not_blocking {pp rp : Obj (List String)} {m : Obj String}
    (h : stableB pp rp m = true) :
    ∀ p ∈ objKeys pp, ∀ r ∈ objKeys rp, blockingB pp rp m p r = false := by
  intro p hp r hr
  simp only [stableB, Bool.and_eq_true, List.all_eq_true] at h
  have := h.2 p hp r hr
  simpa using this

theorem proposerOf_eq {m : Obj String} (hnd : (objKeys m).Nodup)
    (hinj : ∀ q q2 s, objGet m q = some s → objGet m q2 = some s → q = q2)
    {c r : String} (h : objGet m c = some r) : proposerOf m r = some c := by
  unfold proposerOf
  cases hf : m.find? (fun e => e.2 = r) with
  | none =>
      have hmem := mem_of_objGet m c r h
      have hnone := List.find?_eq_none.mp hf (c, r) hmem
      simp at hnone
  | some e =>
      have he : e.2 = r := by
        have := List.find?_some hf
        simpa using this
      have hemem := List.mem_of_find?_eq_some hf
      have hgete : objGet m e.1 = some e.2 := objGet_of_mem m e hemem hnd
      have : e.1 = c := hinj e.1 c r (by rw [hgete, he]) h
      simp [this]

theorem instanceWF_props {pp rp : Obj (List String)}
    (h : instanceWFB pp rp = true) :
    (objKeys pp).Nodup ∧ (objKeys rp).Nodup ∧ "" ∉ objKeys pp ∧
      (∀ p ∈ objKeys pp, ((objGet pp p).getD []).Perm (objKeys rp)) ∧
      (∀ r ∈ objKeys rp, ((objGet rp r).getD []).Perm (objKeys pp)) := by
  simp only [instanceWFB, Bool.and_eq_true, List.all_eq_true,
    decide_eq_true_eq] at h
  refine ⟨h.1.1.1.1, h.1.1.1.2, h.1.1.2, ?_, ?_⟩
  · intro p hp
    obtain ⟨l, hl⟩ := exists_objGet_of_mem_keys pp p hp
    rw [hl]
    exact h.1.2 (p, l) (mem_of_objGet pp p l hl)
  · intro r hr
    obtain ⟨l, hl⟩ := exists_objGet_of_mem_keys rp r hr
    rw [hl]
    exact h.2 (r, l) (mem_of_objGet rp r l hl)

theorem prefersNew_of_prefix_rejected (prefsQ : List String) (M : Obj String)
    (q r : String) (iq : Nat) (hiq : iq < prefsQ.length)
    (hr : nth prefsQ iq = r) (hnd : prefsQ.Nodup)
    (hMq : ∀ s, objGet M q = some s → s ∈ prefsQ)
    (hMne : objGet M q ≠ some r)
    (hrej : ∀ j, j < iq → objGet M q ≠ some (nth prefsQ j)) :
    prefersNewB prefsQ (objGet M q) r = true := by
  cases hM : objGet M q with
  | none => rfl
  | some s =>
      have hsin : s ∈ prefsQ := hMq s hM
      have hposr : pos prefsQ r = iq := hr ▸ pos_nth hnd hiq
      have hs_ge : iq ≤ pos prefsQ s := by
        by_contra hlt2
        push_neg at hlt2
        exact hrej (pos prefsQ s) hlt2 (by rw [hM, nth_pos hsin])
      have hne : s ≠ r := fun e => hMne (by rw [hM, e])
      have hsne : pos prefsQ s ≠ iq := by
        intro e
        have hrin : r ∈ prefsQ := hr ▸ nth_mem hiq
        exact hne (pos_inj hsin hrin (by rw [e, hposr]))
      simp only [prefersNewB, hposr]
      simp only [decide_eq_true_eq]
      omega

theorem stable_cannot_match_loser (pp rp : Obj (List String))
    (hRnd : (objKeys rp).Nodup)
    (hpc : ∀ p ∈ objKeys pp, ((objGet pp p).getD []).Perm (objKeys rp))
    (w l r : String) (hwP : w ∈ objKeys pp) (hlP : l ∈ objKeys pp)
    (hwl : w ≠ l)
    (iw : Nat) (hiw : iw < ((objGet pp w).getD []).length)
    (hnth : nth ((objGet pp w).getD []) iw = r)
    (hrej : ∀ j, j < iw → ∀ M2, stableB pp rp M2 = true →
      objGet M2 w ≠ some (nth ((objGet pp w).getD []) j))
    (hrank : pos ((objGet rp r).getD []) w < pos ((objGet rp r).getD []) l) :
    ∀ M, stableB pp rp M = true → objGet M l ≠ some r := by
  intro M hM hMl
  have hperm := hpc w hwP
  have hrR : r ∈ objKeys rp := hperm.mem_iff.mp (hnth ▸ nth_mem hiw)
  have b1 : objGet M w ≠ some r := by
    intro he
    exact hwl (stableB_inj hM w l r he hMl)
  have hWnd : ((objGet pp w).getD []).Nodup := hperm.nodup_iff.mpr hRnd
  have b2 : prefersNewB ((objGet pp w).getD []) (objGet M w) r = true :=
    prefersNew_of_prefix_rejected _ M w r iw hiw hnth hWnd
      (fun s hs => hperm.mem_iff.mpr ((stableB_mem hM w s hs).2))
      b1 (fun j hj => hrej j hj M hM)
  have hprop : proposerOf M r = some l :=
    proposerOf_eq (stableB_keys_nd hM) (stableB_inj hM) hMl
  have b3 : prefersNewB ((objGet rp r).getD []) (proposerOf M r) w = true := by
    rw [hprop]
    simp only [prefersNewB, decide_eq_true_eq]
    exact hrank
  have hblock : blockingB pp rp M w r = true := by
    simp only [blockingB, Bool.and_eq_true]
    refine ⟨⟨?_, b2⟩, b3⟩
    simpa using b1
  have hnb := stableB_not_blocking hM w hwP r hrR
  rw [hblock] at hnb
  exact Bool.noConfusion hnb

/-- The rejection invariant of the proposal loop: an entry of a proposer's
preference list that lies strictly before its proposal index and is not its
current match has rejected it, and no stable matching of the instance can
pair the proposer with that entry. -/
def RejInv (pp rp : Obj (List String)) (st : GSState) : Prop :=
  ∀ p ∈ objKeys pp, ∀ j, j < (objGet st.propIndex p).getD 0 →
    objGet st.matchesMap p ≠ some (nth ((objGet pp p).getD []) j) →
    ∀ M, stableB pp rp M = true →
      objGet M p ≠ some (nth ((objGet pp p).getD []) j)

theorem rejInv_accept (pp rp : Obj (List String)) (st : GSState) (p r : String)
    (i : Nat) (rest rest2 : List String) (rev2 : Obj String)
    (hR : RejInv pp rp st)
    (hpnone : objGet st.matchesMap p = none)
    (hidx : (objGet st.propIndex p).getD 0 = i)
    (hr : nth ((objGet pp p).getD []) i = r) :
    RejInv pp rp ⟨objSet st.matchesMap p r, rev2, rest2,
      objSet st.propIndex p (i + 1), st.iterations + 1⟩ := by
  intro q hq j hj hne M hM
  dsimp only at hj hne
  by_cases hqp : p = q
  · subst hqp
    rw [objGet_set_self] at hj
    simp only [Option.getD_some] at hj
    rw [objGet_set_self] at hne
    by_cases hji : nth ((objGet pp p).getD []) j = r
    · rw [hji] at hne
      exact absurd rfl hne
    · have hjlt : j < i := by
        rcases Nat.lt_succ_iff_lt_or_eq.mp hj with hl | he
        · exact hl
        · exact absurd (he ▸ hr) hji
      exact hR p hq j (hidx ▸ hjlt) (by rw [hpnone]; exact fun e => Option.noConfusion e) M hM
  · rw [objGet_set_ne st.propIndex p (i + 1) q (Ne.symm hqp)] at hj
    rw [objGet_set_ne st.matchesMap p r q (Ne.symm hqp)] at hne
    exact hR q hq j hj hne M hM

theorem rejInv_reject (pp rp : Obj (List String)) (st : GSState) (p r : String)
    (i : Nat) (rest2 : List String) (hR : RejInv pp rp st)
    (hpnone : objGet st.matchesMap p = none)
    (hidx : (objGet st.propIndex p).getD 0 = i)
    (hr : nth ((objGet pp p).getD []) i = r)
    (hhard : ∀ M, stableB pp rp M = true → objGet M p ≠ some r) :
    RejInv pp rp ⟨st.matchesMap, st.reverseMatches, rest2,
      objSet st.propIndex p (i + 1), st.iterations + 1⟩ := by
  intro q hq j hj hne M hM
  dsimp only at hj hne
  by_cases hqp : p = q
  · subst hqp
    rw [objGet_set_self] at hj
    simp only [Option.getD_some] at hj
    by_cases hji : nth ((objGet pp p).getD []) j = r
    · rw [hji]
      exact hhard M hM
    · have hjlt : j < i := by
        rcases Nat.lt_succ_iff_lt_or_eq.mp hj with hl | he
        · exact hl
        · exact absurd (he ▸ hr) hji
      exact hR p hq j (hidx ▸ hjlt) hne M hM
  · rw [objGet_set_ne st.propIndex p (i + 1) q (Ne.symm hqp)] at hj
    exact hR q hq j hj hne M hM

theorem rejInv_displace (pp rp : Obj (List String)) (st : GSState)
    (p r c : String) (i : Nat) (rest2 : List String) (hR : RejInv pp rp st)
    (hpnone : objGet st.matchesMap p = none)
    (hcm : objGet st.matchesMap c = some r) (hcp : c ≠ p)
    (hidx : (objGet st.propIndex p).getD 0 = i)
    (hr : nth ((objGet pp p).getD []) i = r)
    (hhardc : ∀ M, stableB pp rp M = true → objGet M c ≠ some r) :
    RejInv pp rp ⟨objDelete (objSet st.matchesMap p r) c,
      objSet st.reverseMatches r p, rest2,
      objSet st.propIndex p (i + 1), st.iterations + 1⟩ := by
  intro q hq j hj hne M hM
  dsimp only at hj hne
  by_cases hqc : c = q
  · subst hqc
    rw [objGet_set_ne st.propIndex p (i + 1) c (Ne.symm (fun e => hcp e.symm))] at hj
    by_cases hji : nth ((objGet pp c).getD []) j = r
    · rw [hji]
      exact hhardc M hM
    · refine hR c hq j hj ?_ M hM
      rw [hcm]
      intro he
      exact hji (Option.some.inj he).symm
  · by_cases hqp : p = q
    · subst hqp
      rw [objGet_set_self] at hj
      simp only [Option.getD_some] at hj
      rw [objGet_delete_ne _ c p (fun e => hcp e.symm),
        objGet_set_self] at hne
      by_cases hji : nth ((objGet pp p).getD []) j = r
      · rw [hji] at hne
        exact absurd rfl hne
      · have hjlt : j < i := by
          rcases Nat.lt_succ_iff_lt_or_eq.mp hj with hl | he
          · exact hl
          · exact absurd (he ▸ hr) hji
        exact hR p hq j (hidx ▸ hjlt)
          (by rw [hpnone]; exact fun e => Option.noConfusion e) M hM
    · rw [objGet_set_ne st.propIndex p (i + 1) q (Ne.symm hqp)] at hj
      rw [objGet_delete_ne _ c q (Ne.symm hqc),
        objGet_set_ne st.matchesMap p r q (Ne.symm hqp)] at hne
      exact hR q hq j hj hne M hM

theorem rejInv_step (pp rp : Obj (List String))
    (hRnd : (objKeys rp).Nodup) (hE : "" ∉ objKeys pp)
    (hpc : ∀ p ∈ objKeys pp, ((objGet pp p).getD []).Perm (objKeys rp))
    (hrc : ∀ r ∈ objKeys rp, ((objGet rp r).getD []).Perm (objKeys pp))
    (st : GSState) (p : String) (rest : List String)
    (hu : st.unmatchedProposers = p :: rest) (h : InvL pp st)
    (hR : RejInv pp rp st) : RejInv pp rp (gsStep pp rp st p rest) := by
  have hpmem : p ∈ st.unmatchedProposers := hu ▸ List.mem_cons_self p rest
  have hpP : p ∈ objKeys pp := h.u_sub p hpmem
  have hpnone : objGet st.matchesMap p = none := h.u_none p hpmem
  simp only [gsStep]
  by_cases hlt : (objGet st.propIndex p).getD 0 < ((objGet pp p).getD []).length
  case neg =>
    rw [if_neg hlt]
    exact fun q hq j hj hne M hM => hR q hq j hj hne M hM
  case pos =>
  rw [if_pos hlt]
  cases hrev : objGet st.reverseMatches
      (nth ((objGet pp p).getD []) ((objGet st.propIndex p).getD 0)) with
  | none =>
      exact rejInv_accept pp rp st p _ _ rest rest _ hR hpnone rfl rfl
  | some c =>
      dsimp only
      by_cases hc : c = ""
      · rw [if_pos hc]
        subst hc
        exact absurd (h.m_sub _ _ ((h.inv _ _).mpr hrev)) hE
      · rw [if_neg hc]
        have hcm : objGet st.matchesMap c =
            some (nth ((objGet pp p).getD []) ((objGet st.propIndex p).getD 0)) :=
          (h.inv c _).mpr hrev
        have hcP : c ∈ objKeys pp := h.m_sub c _ hcm
        have hcp : c ≠ p := by
          intro e
          rw [e, hpnone] at hcm
          exact Option.noConfusion hcm
        have hpperm := hpc p hpP
        have hrmem : nth ((objGet pp p).getD []) ((objGet st.propIndex p).getD 0) ∈
            (objGet pp p).getD [] := nth_mem hlt
        have hrR : nth ((objGet pp p).getD []) ((objGet st.propIndex p).getD 0) ∈
            objKeys rp := hpperm.mem_iff.mp hrmem
        have hrperm := hrc _ hrR
        have hpmemr : p ∈ (objGet rp (nth ((objGet pp p).getD [])
            ((objGet st.propIndex p).getD 0))).getD [] := hrperm.mem_iff.mpr hpP
        have hcmemr : c ∈ (objGet rp (nth ((objGet pp p).getD [])
            ((objGet st.propIndex p).getD 0))).getD [] := hrperm.mem_iff.mpr hcP
        by_cases hrank : jsIndexOf ((objGet rp
              (nth ((objGet pp p).getD []) ((objGet st.propIndex p).getD 0))).getD []) p <
            jsIndexOf ((objGet rp
              (nth ((objGet pp p).getD []) ((objGet st.propIndex p).getD 0))).getD []) c
        · rw [if_pos hrank]
          have hposlt := (jsIndexOf_lt_iff hpmemr hcmemr).mp hrank
          have hrejP : ∀ j, j < (objGet st.propIndex p).getD 0 →
              ∀ M2, stableB pp rp M2 = true →
                objGet M2 p ≠ some (nth ((objGet pp p).getD []) j) :=
            fun j hj M2 hM2 => hR p hpP j hj
              (by rw [hpnone]; exact fun e => Option.noConfusion e) M2 hM2
          have hhardc := stable_cannot_match_loser pp rp hRnd hpc p c _ hpP hcP
            (Ne.symm hcp) _ hlt rfl hrejP hposlt
          exact rejInv_displace pp rp st p _ c _ (rest ++ [c]) hR hpnone hcm hcp
            rfl rfl hhardc
        · rw [if_neg hrank]
          obtain ⟨ic, hic1, hic2, hic3⟩ := h.m_last c _ hcm
          have hprefsCnd : ((objGet pp c).getD []).Nodup :=
            (hpc c hcP).nodup_iff.mpr hRnd
          have hrejC : ∀ j, j < ic → ∀ M2, stableB pp rp M2 = true →
              objGet M2 c ≠ some (nth ((objGet pp c).getD []) j) := by
            intro j hj M2 hM2
            refine hR c hcP j (by rw [hic1]; omega) ?_ M2 hM2
            rw [hcm]
            intro he
            have hji := (Option.some.inj he).symm
            have hpj : pos ((objGet pp c).getD [])
                (nth ((objGet pp c).getD []) j) = j :=
              pos_nth hprefsCnd (Nat.lt_trans hj hic2)
            rw [hji] at hpj
            have hpic : pos ((objGet pp c).getD [])
                (nth ((objGet pp c).getD []) ic) = ic :=
              pos_nth hprefsCnd hic2
            rw [hic3] at hpic
            omega
          have hposlt : pos ((objGet rp (nth ((objGet pp p).getD [])
                ((objGet st.propIndex p).getD 0))).getD []) c <
              pos ((objGet rp (nth ((objGet pp p).getD [])
                ((objGet st.propIndex p).getD 0))).getD []) p := by
            have hnlt : ¬ (pos ((objGet rp (nth ((objGet pp p).getD [])
                ((objGet st.propIndex p).getD 0))).getD []) p <
                pos ((objGet rp (nth ((objGet pp p).getD [])
                  ((objGet st.propIndex p).getD 0))).getD []) c) :=
              fun hlt2 => hrank ((jsIndexOf_lt_iff hpmemr hcmemr).mpr hlt2)
            have hne2 : pos ((objGet rp (nth ((objGet pp p).getD [])
                ((objGet st.propIndex p).getD 0))).getD []) c ≠
                pos ((objGet rp (nth ((objGet pp p).getD [])
                  ((objGet st.propIndex p).getD 0))).getD []) p :=
              fun e => hcp (pos_inj hcmemr hpmemr e)
            omega
          have hhardp := stable_cannot_match_loser pp rp hRnd hpc c p _ hcP hpP
            hcp ic hic2 hic3 hrejC hposlt
          exact rejInv_reject pp rp st p _ _ (p :: rest) hR hpnone rfl rfl hhardp

theorem rejInv_init (pp rp : Obj (List String)) :
    RejInv pp rp (initState pp) := by
  intro q hq j hj
  rw [show (initState pp).propIndex =
    (objKeys pp).foldl (fun m x => objSet m x 0) [] from rfl] at hj
  rw [initIdx_zero (objKeys pp) [] (fun x => rfl) q] at hj
  exact absurd hj (Nat.not_lt_zero j)

theorem rejInv_final (pp rp : Obj (List String))
    (hwf : instanceWFB pp rp = true) :
    InvL pp (galeShapleyAlgorithm pp rp) ∧
      RejInv pp rp (galeShapleyAlgorithm pp rp) := by
  obtain ⟨hPnd, hRnd, hE, hpc, hrc⟩ := instanceWF_props hwf
  unfold galeShapleyAlgorithm
  have hloop : ∀ (fuel : Nat) (st : GSState), InvL pp st → RejInv pp rp st →
      InvL pp (gsLoop pp rp fuel st) ∧ RejInv pp rp (gsLoop pp rp fuel st) := by
    intro fuel
    induction fuel with
    | zero => intro st h1 h2; exact ⟨h1, h2⟩
    | succ fuel ih =>
        intro st h1 h2
        rw [gsLoop]
        cases hu : st.unmatchedProposers with
        | nil => exact ⟨h1, h2⟩
        | cons p rest =>
            exact ih (gsStep pp rp st p rest) (invL_step pp rp hE st p rest hu h1)
              (rejInv_step pp rp hRnd hE hpc hrc st p rest hu h1 h2)
  exact hloop maxIterations (initState pp) (invL_init pp hPnd) (rejInv_init pp rp)

/-- C3: proposer-optimality of the solver output.  For a well-formed
complete instance, no proposer is matched in any alternative stable matching
`M` to a reviewer it strictly prefers (earlier in its preference list) over
its partner in the solver's output; this holds for every proposer matched in
the output, including partial outputs produced under the iteration cap. -/
theorem gs_proposer_optimal (pp rp : Obj (List String))
    (hwf : instanceWFB pp rp = true) (M : Obj String)
    (hM : stableB pp rp M = true) (p rOut rM : String)
    (hout : objGet (galeShapleyAlgorithm pp rp).matchesMap p = some rOut)
    (hMp : objGet M p = some rM) :
    ¬ (pos ((objGet pp p).getD []) rM < pos ((objGet pp p).getD []) rOut) := by
  obtain ⟨hPnd, hRnd, hE, hpc, hrc⟩ := instanceWF_props hwf
  obtain ⟨hL, hR⟩ := rejInv_final pp rp hwf
  have hpP : p ∈ objKeys pp := hL.m_sub p rOut hout
  obtain ⟨i, hi1, hi2, hi3⟩ := hL.m_last p rOut hout
  have hperm := hpc p hpP
  have hnd : ((objGet pp p).getD []).Nodup := hperm.nodup_iff.mpr hRnd
  have hposOut : pos ((objGet pp p).getD []) rOut = i := hi3 ▸ pos_nth hnd hi2
  intro hcon
  have hrMR : rM ∈ objKeys rp := (stableB_mem hM p rM hMp).2
  have hrMmem : rM ∈ (objGet pp p).getD [] := hperm.mem_iff.mpr hrMR
  have hposM_lt : pos ((objGet pp p).getD []) rM < i := by
    rw [hposOut] at hcon
    exact hcon
  have hnthM : nth ((objGet pp p).getD []) (pos ((objGet pp p).getD []) rM) =
      rM := nth_pos hrMmem
  have hne : objGet (galeShapleyAlgorithm pp rp).matchesMap p ≠
      some (nth ((objGet pp p).getD []) (pos ((objGet pp p).getD []) rM)) := by
    rw [hout]
    intro he
    have heq : rOut = nth ((objGet pp p).getD [])
        (pos ((objGet pp p).getD []) rM) := Option.some.inj he
    rw [hnthM] at heq
    rw [← heq, hposOut] at hposM_lt
    exact Nat.lt_irrefl i hposM_lt
  have hres := hR p hpP (pos ((objGet pp p).getD []) rM)
    (by rw [hi1]; omega) hne M hM
  rw [hnthM] at hres
  exact hres hMp

/-- Witness for C3 at the classic instance: the solver matches `P1` to `R2`,
and in the (stable) matching `{P2 - R1, P1 - R2}` proposer `P1` is not
strictly better off. -/
theorem gs_proposer_optimal_witness :
    instanceWFB [("P1", ["R1", "R2"]), ("P2", ["R1", "R2"])]
        [("R1", ["P2", "P1"]), ("R2", ["P1", "P2"])] = true ∧
    stableB [("P1", ["R1", "R2"]), ("P2", ["R1", "R2"])]
        [("R1", ["P2", "P1"]), ("R2", ["P1", "P2"])]
        [("P2", "R1"), ("P1", "R2")] = true ∧
    ¬ (pos ((objGet [("P1", ["R1", "R2"]), ("P2", ["R1", "R2"])] "P1").getD [])
          "R2" <
        pos ((objGet [("P1", ["R1", "R2"]), ("P2", ["R1", "R2"])] "P1").getD [])
          "R2") :=
  ⟨by decide, by decide,
    gs_proposer_optimal [("P1", ["R1", "R2"]), ("P2", ["R1", "R2"])]
      [("R1", ["P2", "P1"]), ("R2", ["P1", "P2"])] (by decide)
      [("P2", "R1"), ("P1", "R2")] (by decide)
      "P1" "R2" "R2" (by decide) (by decide)⟩

theorem insertDesc_perm (x : String × Rat) (l : List (String × Rat)) :
    (insertDesc x l).Perm (x :: l) := by
  induction l with
  | nil => exact List.Perm.refl _
  | cons y ys ih =>
      by_cases h : x.2 ≤ y.2
      · rw [insertDesc, if_pos h]
        exact (List.Perm.cons y ih).trans (List.Perm.swap x y ys)
      · rw [insertDesc, if_neg h]

theorem sortFold_perm :
    ∀ (l acc : List (String × Rat)),
      (l.foldl (fun a x => insertDesc x a) acc).Perm (acc ++ l) := by
  intro l
  induction l with
  | nil => intro acc; simp
  | cons x xs ih =>
      intro acc
      refine (ih (insertDesc x acc)).trans ?_
      refine (List.Perm.append_right xs (insertDesc_perm x acc)).trans ?_
      exact List.perm_middle.symm

theorem sortByScoreDesc_perm (l : List (String × Rat)) :
    (sortByScoreDesc l).Perm l := sortFold_perm l []

/-- Order produced by the stable descending sort relative to a rank function
`ρ` (position in the input): strictly higher score first, ties in input
order. -/
def StableRel (ρ : String × Rat → Nat) (a b : String × Rat) : Prop :=
  b.2 < a.2 ∨ (a.2 = b.2 ∧ ρ a < ρ b)

theorem insertDesc_pairwise (ρ : String × Rat → Nat) (x : String × Rat)
    (acc : List (String × Rat)) (hacc : acc.Pairwise (StableRel ρ))
    (hlt : ∀ a ∈ acc, ρ a < ρ x) :
    (insertDesc x acc).Pairwise (StableRel ρ) := by
  induction acc with
  | nil => simp [insertDesc, StableRel]
  | cons y ys ih =>
      rcases List.pairwise_cons.mp hacc with ⟨hy, hys⟩
      by_cases h : x.2 ≤ y.2
      · rw [insertDesc, if_pos h]
        rw [List.pairwise_cons]
        constructor
        · intro b hb
          rcases List.mem_cons.mp ((insertDesc_perm x ys).mem_iff.mp hb) with
            hbx | hbys
          · rw [hbx]
            rcases lt_or_eq_of_le h with hlt2 | heq
            · exact Or.inl hlt2
            · exact Or.inr ⟨heq.symm, hlt y (List.mem_cons_self y ys)⟩
          · exact hy b hbys
        · exact ih hys (fun a ha => hlt a (List.mem_cons_of_mem y ha))
      · rw [insertDesc, if_neg h]
        push_neg at h
        rw [List.pairwise_cons]
        refine ⟨?_, hacc⟩
        intro b hb
        rcases List.mem_cons.mp hb with hby | hbys
        · rw [hby]
          exact Or.inl h
        · rcases hy b hbys with h2 | ⟨h2, _⟩
          · exact Or.inl (lt_trans h2 h)
          · exact Or.inl (h2 ▸ h)

theorem sortFold_pairwise (ρ : String × Rat → Nat) :
    ∀ (rest acc : List (String × Rat)),
      acc.Pairwise (StableRel ρ) →
      rest.Pairwise (fun a b => ρ a < ρ b) →
      (∀ a ∈ acc, ∀ b ∈ rest, ρ a < ρ b) →
      (rest.foldl (fun a x => insertDesc x a) acc).Pairwise (StableRel ρ) := by
  intro rest
  induction rest with
  | nil => intro acc h _ _; exact h
  | cons x xs ih =>
      intro acc hacc hrest hcross
      rcases List.pairwise_cons.mp hrest with ⟨hx, hxs⟩
      refine ih (insertDesc x acc) ?_ hxs ?_
      · exact insertDesc_pairwise ρ x acc hacc
          (fun a ha => hcross a ha x (List.mem_cons_self x xs))
      · intro a ha b hb
        rcases List.mem_cons.mp ((insertDesc_perm x acc).mem_iff.mp ha) with
          hax | haacc
        · rw [hax]
          exact hx b hb
        · exact hcross a haacc b (List.mem_cons_of_mem x hb)

theorem pairwise_pos_self (l : List String) (hnd : l.Nodup) :
    l.Pairwise (fun a b => pos l a < pos l b) := by
  induction l with
  | nil => exact List.Pairwise.nil
  | cons a as ih =>
      rcases List.nodup_cons.mp hnd with ⟨hna, hnd2⟩
      rw [List.pairwise_cons]
      constructor
      · intro b hb
        have hab : a ≠ b := fun e => hna (e ▸ hb)
        simp [pos, hab]
      · refine (ih hnd2).imp_of_mem ?_
        intro x y hx hy hxy
        have hax : a ≠ x := fun e => hna (e ▸ hx)
        have hay : a ≠ y := fun e => hna (e ▸ hy)
        simpa [pos, hax, hay] using hxy

theorem mem_scoredEntries (score : ScoreFn) (p : String)
    (others : List String) (a : String × Rat)
    (ha : a ∈ scoredEntries score p others) :
    a.2 = effScore score p a.1 ∧ a.1 ∈ others := by
  obtain ⟨r, hr, he⟩ := List.mem_map.mp ha
  constructor
  · rw [← he]
  · rw [← he]
    exact hr

theorem scoredEntries_keys (score : ScoreFn) (p : String)
    (others : List String) :
    (scoredEntries score p others).map Prod.fst = others := by
  induction others with
  | nil => rfl
  | cons x xs ih => simp [scoredEntries] at ih ⊢; exact ih

theorem scoredEntries_pairwise (score : ScoreFn) (p : String)
    (others : List String) (hnd : others.Nodup) :
    (scoredEntries score p others).Pairwise
      (fun a b => pos others a.1 < pos others b.1) := by
  unfold scoredEntries
  rw [List.pairwise_map]
  exact pairwise_pos_self others hnd

theorem sortedEntries_spec (score : ScoreFn) (p : String)
    (others : List String) (hnd : others.Nodup) :
    ((sortByScoreDesc (scoredEntries score p others)).map Prod.fst).Perm others ∧
    ((sortByScoreDesc (scoredEntries score p others)).map Prod.fst).Pairwise
      (fun a b => effScore score p b < effScore score p a ∨
        (effScore score p a = effScore score p b ∧ pos others a < pos others b)) := by
  have hperm := sortByScoreDesc_perm (scoredEntries score p others)
  constructor
  · have h1 : ((sortByScoreDesc (scoredEntries score p others)).map
        Prod.fst).Perm ((scoredEntries score p others).map Prod.fst) :=
      hperm.map Prod.fst
    rw [scoredEntries_keys score p others] at h1
    exact h1
  · rw [List.pairwise_map]
    have hsorted : (sortByScoreDesc (scoredEntries score p others)).Pairwise
        (StableRel (fun e => pos others e.1)) :=
      sortFold_pairwise _ (scoredEntries score p others) []
        List.Pairwise.nil (scoredEntries_pairwise score p others hnd)
        (fun a ha => absurd ha (List.not_mem_nil a))
    refine hsorted.imp_of_mem ?_
    intro a b ha hb hab
    have ha2 := (mem_scoredEntries score p others a
      (hperm.mem_iff.mp ha)).1
    have hb2 := (mem_scoredEntries score p others b
      (hperm.mem_iff.mp hb)).1
    rcases hab with h | ⟨h1, h2⟩
    · exact Or.inl (ha2 ▸ hb2 ▸ h)
    · exact Or.inr ⟨ha2 ▸ hb2 ▸ h1, h2⟩

theorem objGet_buildFold {β : Type} (f : String → β) (l : List String) :
    ∀ (m : Obj β) (q : String),
      objGet (l.foldl (fun a x => objSet a x (f x)) m) q =
        if q ∈ l then some (f q) else objGet m q := by
  induction l with
  | nil => intro m q; simp
  | cons x xs ih =>
      intro m q
      rw [List.foldl_cons, ih (objSet m x (f x)) q]
      by_cases hq : q ∈ xs
      · simp [hq]
      · by_cases hqx : q = x
        · simp [hq, hqx, objGet_set_self]
        · simp [hq, hqx, objGet_set_ne m x (f x) q hqx]

/-- C6 (amended): every preference list built by
`generateProposerPreferences` / `generateReviewerPreferences` contains each
opposite-side identifier exactly once (a permutation of the opposite side)
and is ordered by pairwise score descending; ties are broken by the input
order of the entities (`Array.prototype.sort` is stable), not by entity id
ascending as the specification claims. -/
theorem buildPreferences_sorted (proposers reviewers : List String)
    (score : ScoreFn) (hR : reviewers.Nodup) (hP : proposers.Nodup) :
    (∀ p ∈ proposers, ∃ prefs,
      objGet (generateProposerPreferences proposers reviewers
        score).preferences p = some prefs ∧
      prefs.Perm reviewers ∧
      prefs.Pairwise (fun a b => effScore score p b < effScore score p a ∨
        (effScore score p a = effScore score p b ∧
          pos reviewers a < pos reviewers b))) ∧
    (∀ r ∈ reviewers, ∃ prefs,
      objGet (generateReviewerPreferences reviewers proposers
        score).preferences r = some prefs ∧
      prefs.Perm proposers ∧
      prefs.Pairwise (fun a b => effScore score b r < effScore score a r ∨
        (effScore score a r = effScore score b r ∧
          pos proposers a < pos proposers b))) := by
  constructor
  · intro p hp
    refine ⟨(sortByScoreDesc (scoredEntries score p reviewers)).map Prod.fst,
      ?_, ?_, ?_⟩
    · rw [show (generateProposerPreferences proposers reviewers
          score).preferences = proposers.foldl (fun acc q => objSet acc q
            ((sortByScoreDesc (scoredEntries score q reviewers)).map Prod.fst))
          [] from rfl,
        objGet_buildFold (fun q => (sortByScoreDesc (scoredEntries score q
          reviewers)).map Prod.fst) proposers [] p, if_pos hp]
    · exact (sortedEntries_spec score p reviewers hR).1
    · exact (sortedEntries_spec score p reviewers hR).2
  · intro r hr
    refine ⟨(sortByScoreDesc (scoredEntries (fun a b => score b a) r
      proposers)).map Prod.fst, ?_, ?_, ?_⟩
    · rw [show (generateReviewerPreferences reviewers proposers
          score).preferences = reviewers.foldl (fun acc q => objSet acc q
            ((sortByScoreDesc (scoredEntries (fun a b => score b a) q
              proposers)).map Prod.fst)) [] from rfl,
        objGet_buildFold (fun q => (sortByScoreDesc (scoredEntries
          (fun a b => score b a) q proposers)).map Prod.fst) reviewers [] r,
        if_pos hr]
    · exact (sortedEntries_spec (fun a b => score b a) r proposers hP).1
    · exact (sortedEntries_spec (fun a b => score b a) r proposers hP).2

/-- Witness for the amended C6 at a concrete two-reviewer instance. -/
theorem buildPreferences_sorted_witness :
    (∀ p ∈ ["P"], ∃ prefs,
      objGet (generateProposerPreferences ["P"] ["R1", "R2"]
        (fun _ _ => .ok 10)).preferences p = some prefs ∧
      prefs.Perm ["R1", "R2"] ∧
      prefs.Pairwise (fun a b =>
        effScore (fun _ _ => .ok 10) p b < effScore (fun _ _ => .ok 10) p a ∨
        (effScore (fun _ _ => .ok 10) p a = effScore (fun _ _ => .ok 10) p b ∧
          pos ["R1", "R2"] a < pos ["R1", "R2"] b))) ∧
    (∀ r ∈ ["R1", "R2"], ∃ prefs,
      objGet (generateReviewerPreferences ["R1", "R2"] ["P"]
        (fun _ _ => .ok 10)).preferences r = some prefs ∧
      prefs.Perm ["P"] ∧
      prefs.Pairwise (fun a b =>
        effScore (fun _ _ => .ok 10) b r < effScore (fun _ _ => .ok 10) a r ∨
        (effScore (fun _ _ => .ok 10) a r = effScore (fun _ _ => .ok 10) b r ∧
          pos ["P"] a < pos ["P"] b))) :=
  buildPreferences_sorted ["P"] ["R1", "R2"] (fun _ _ => .ok 10)
    (by decide) (by decide)

theorem mem_foldl_append {α β : Type} (f : α → List β) (l : List α) :
    ∀ (acc : List β) (x : β), (x ∈ acc ∨ ∃ q ∈ l, x ∈ f q) →
      x ∈ l.foldl (fun a q => a ++ f q) acc := by
  induction l with
  | nil =>
      intro acc x h
      rcases h with h | ⟨q, hq, _⟩
      · exact h
      · simp at hq
  | cons y ys ih =>
      intro acc x h
      rw [List.foldl_cons]
      refine ih (acc ++ f y) x ?_
      rcases h with h | ⟨q, hq, hx⟩
      · exact Or.inl (List.mem_append.mpr (Or.inl h))
      · rcases List.mem_cons.mp hq with hqy | hqys
        · exact Or.inl (List.mem_append.mpr (Or.inr (hqy ▸ hx)))
        · exact Or.inr ⟨q, hqys, hx⟩

/-- C8: a per-pair scoring failure during preference-list construction does
not abort the build, in either builder: the failed pair is scored with the
neutral `50` (each builder's lists equal those built from the error-free
effective score), the pair is reported in each builder's warning log
(modelled by `fallbackPairs`), and every proposer and every reviewer still
gets a full preference list covering the whole opposite side. -/
theorem per_pair_fallback (proposers reviewers : List String) (score : ScoreFn)
    (p r : String) (hp : p ∈ proposers) (hr : r ∈ reviewers)
    (herr : score p r = .error ()) :
    (generateProposerPreferences proposers reviewers score).preferences =
      (generateProposerPreferences proposers reviewers
        (fun a b => .ok (effScore score a b))).preferences ∧
    (generateReviewerPreferences reviewers proposers score).preferences =
      (generateReviewerPreferences reviewers proposers
        (fun a b => .ok (effScore score a b))).preferences ∧
    effScore score p r = 50 ∧
    (p, r) ∈ (generateProposerPreferences proposers reviewers
      score).fallbackPairs ∧
    (r, p) ∈ (generateReviewerPreferences reviewers proposers
      score).fallbackPairs ∧
    (∀ q ∈ proposers, ∃ prefs,
      objGet (generateProposerPreferences proposers reviewers
        score).preferences q = some prefs ∧
      prefs.length = reviewers.length) ∧
    (∀ q ∈ reviewers, ∃ prefs,
      objGet (generateReviewerPreferences reviewers proposers
        score).preferences q = some prefs ∧
      prefs.length = proposers.length) := by
  refine ⟨rfl, rfl, by simp [effScore, herr], ?_, ?_, ?_, ?_⟩
  · refine mem_foldl_append _ proposers [] (p, r) (Or.inr ⟨p, hp, ?_⟩)
    refine List.mem_map.mpr ⟨r, ?_, rfl⟩
    refine List.mem_filter.mpr ⟨hr, ?_⟩
    rw [herr]
    rfl
  · refine mem_foldl_append _ reviewers [] (r, p) (Or.inr ⟨r, hr, ?_⟩)
    refine List.mem_map.mpr ⟨p, ?_, rfl⟩
    refine List.mem_filter.mpr ⟨hp, ?_⟩
    rw [herr]
    rfl
  · intro q hq
    refine ⟨(sortByScoreDesc (scoredEntries score q reviewers)).map Prod.fst,
      ?_, ?_⟩
    · rw [show (generateProposerPreferences proposers reviewers
          score).preferences = proposers.foldl (fun acc q2 => objSet acc q2
            ((sortByScoreDesc (scoredEntries score q2 reviewers)).map
              Prod.fst)) [] from rfl,
        objGet_buildFold (fun q2 => (sortByScoreDesc (scoredEntries score q2
          reviewers)).map Prod.fst) proposers [] q, if_pos hq]
    · rw [List.length_map,
        (sortByScoreDesc_perm (scoredEntries score q reviewers)).length_eq]
      exact List.length_map reviewers _
  · intro q hq
    refine ⟨(sortByScoreDesc (scoredEntries (fun a b => score b a) q
      proposers)).map Prod.fst, ?_, ?_⟩
    · rw [show (generateReviewerPreferences reviewers proposers
          score).preferences = reviewers.foldl (fun acc q2 => objSet acc q2
            ((sortByScoreDesc (scoredEntries (fun a b => score b a) q2
              proposers)).map Prod.fst)) [] from rfl,
        objGet_buildFold (fun q2 => (sortByScoreDesc (scoredEntries
          (fun a b => score b a) q2 proposers)).map Prod.fst) reviewers []
          q, if_pos hq]
    · rw [List.length_map,
        (sortByScoreDesc_perm (scoredEntries (fun a b => score b a) q
          proposers)).length_eq]
      exact List.length_map proposers _

/-- Witness for C8 with a score function failing exactly on the pair
`(P, R1)`. -/
theorem per_pair_fallback_witness :
    (generateProposerPreferences ["P"] ["R1", "R2"]
        (fun a b => if a = "P" ∧ b = "R1" then .error () else .ok 10)).preferences =
      (generateProposerPreferences ["P"] ["R1", "R2"]
        (fun a b => .ok (effScore
          (fun a b => if a = "P" ∧ b = "R1" then .error () else .ok 10)
          a b))).preferences ∧
    (generateReviewerPreferences ["R1", "R2"] ["P"]
        (fun a b => if a = "P" ∧ b = "R1" then .error () else .ok 10)).preferences =
      (generateReviewerPreferences ["R1", "R2"] ["P"]
        (fun a b => .ok (effScore
          (fun a b => if a = "P" ∧ b = "R1" then .error () else .ok 10)
          a b))).preferences ∧
    effScore (fun a b => if a = "P" ∧ b = "R1" then .error () else .ok 10)
      "P" "R1" = 50 ∧
    ("P", "R1") ∈ (generateProposerPreferences ["P"] ["R1", "R2"]
      (fun a b => if a = "P" ∧ b = "R1" then .error () else .ok 10)).fallbackPairs ∧
    ("R1", "P") ∈ (generateReviewerPreferences ["R1", "R2"] ["P"]
      (fun a b => if a = "P" ∧ b = "R1" then .error () else .ok 10)).fallbackPairs ∧
    (∀ q ∈ ["P"], ∃ prefs,
      objGet (generateProposerPreferences ["P"] ["R1", "R2"]
        (fun a b => if a = "P" ∧ b = "R1" then .error () else .ok 10)).preferences
          q = some prefs ∧
      prefs.length = (["R1", "R2"] : List String).length) ∧
    (∀ q ∈ ["R1", "R2"], ∃ prefs,
      objGet (generateReviewerPreferences ["R1", "R2"] ["P"]
        (fun a b => if a = "P" ∧ b = "R1" then .error () else .ok 10)).preferences
          q = some prefs ∧
      prefs.length = (["P"] : List String).length) :=
  per_pair_fallback ["P"] ["R1", "R2"]
    (fun a b => if a = "P" ∧ b = "R1" then .error () else .ok 10)
    "P" "R1" (by decide) (by decide) (by rfl)

theorem jsMin_le_right (a b : Rat) : jsMin a b ≤ b := by
  unfold jsMin
  split_ifs with h
  · exact h
  · exact le_refl b

theorem jsMin_le_left (a b : Rat) : jsMin a b ≤ a := by
  unfold jsMin
  split_ifs with h
  · exact le_refl a
  · exact le_of_not_le h

theorem jsMin_nonneg {a b : Rat} (ha : 0 ≤ a) (hb : 0 ≤ b) :
    0 ≤ jsMin a b := by
  unfold jsMin
  split_ifs <;> assumption

theorem le_jsMax_left (a b : Rat) : a ≤ jsMax a b := by
  unfold jsMax
  split_ifs with h
  · exact h
  · exact le_refl a

theorem jsRound_nonneg {q : Rat} (h : 0 ≤ q) : 0 ≤ jsRound q := by
  unfold jsRound
  rw [Int.le_floor]
  push_cast
  linarith

theorem jsRound_le {q : Rat} {n : Int} (h : q ≤ (n : Rat)) : jsRound q ≤ n := by
  unfold jsRound
  have : (⌊q + 1 / 2⌋ : Int) < n + 1 := by
    rw [Int.floor_lt]
    push_cast
    linarith
  omega

theorem jaccard_nonneg (l1 l2 : List String) : 0 ≤ jaccard l1 l2 := by
  unfold jaccard
  positivity

theorem jaccard_le_one (l1 l2 : List String) : jaccard l1 l2 ≤ 1 := by
  unfold jaccard
  rcases Nat.eq_zero_or_pos (l1.toFinset ∪ l2.toFinset).card with h | h
  · rw [h]
    norm_num
  · rw [div_le_one (by exact_mod_cast h)]
    exact_mod_cast Finset.card_le_card
      (Finset.Subset.trans Finset.inter_subset_left Finset.subset_union_left)

theorem textSimilarityFallback_bounds (t1 t2 : String) :
    0 ≤ SemanticMatcher.calculateTextSimilarityFallback t1 t2 ∧
      SemanticMatcher.calculateTextSimilarityFallback t1 t2 ≤ 20 := by
  unfold SemanticMatcher.calculateTextSimilarityFallback
  split_ifs with h
  · norm_num
  · constructor
    · exact_mod_cast jsRound_nonneg
        (mul_nonneg (jaccard_nonneg _ _) (by norm_num))
    · have h1 := jaccard_le_one ((jsToLower t1).split Char.isWhitespace)
        ((jsToLower t2).split Char.isWhitespace)
      have h2 : jaccard ((jsToLower t1).split Char.isWhitespace)
          ((jsToLower t2).split Char.isWhitespace) * 20 ≤ ((20 : Int) : Rat) := by
        push_cast
        linarith
      exact_mod_cast jsRound_le h2

theorem styleSimilarityFallback_bounds (tags1 tags2 : List String) :
    0 ≤ SemanticMatcher.calculateStyleSimilarityFallback tags1 tags2 ∧
      SemanticMatcher.calculateStyleSimilarityFallback tags1 tags2 ≤ 20 := by
  unfold SemanticMatcher.calculateStyleSimilarityFallback
  split_ifs with h
  · norm_num
  · constructor
    · exact_mod_cast jsRound_nonneg
        (mul_nonneg (jaccard_nonneg _ _) (by norm_num))
    · have h1 := jaccard_le_one (tags1.map jsToLower) (tags2.map jsToLower)
      have h2 : jaccard (tags1.map jsToLower) (tags2.map jsToLower) * 20 ≤
          ((20 : Int) : Rat) := by
        push_cast
        linarith
      exact_mod_cast jsRound_le h2

theorem textSimilarity_bounds (sm : SemanticMatcherState) (t1 t2 : String)
    (hsim : ∀ a b, 0 ≤ sm.textSim a b ∧ sm.textSim a b ≤ 1) :
    0 ≤ SemanticMatcher.calculateTextSimilarity sm t1 t2 ∧
      SemanticMatcher.calculateTextSimilarity sm t1 t2 ≤ 20 := by
  unfold SemanticMatcher.calculateTextSimilarity
  split_ifs with h
  · obtain ⟨h1, h2⟩ := hsim t1 t2
    constructor
    · exact_mod_cast jsRound_nonneg (by positivity)
    · have h3 : sm.textSim t1 t2 * 20 ≤ ((20 : Int) : Rat) := by
        push_cast
        linarith
      exact_mod_cast jsRound_le h3
  · exact textSimilarityFallback_bounds t1 t2

theorem styleSimilarity_nonneg (sm : SemanticMatcherState)
    (tags1 tags2 : List String)
    (hsim : ∀ a b, 0 ≤ sm.textSim a b ∧ sm.textSim a b ≤ 1) :
    0 ≤ SemanticMatcher.calculateStyleSimilarity sm tags1 tags2 := by
  unfold SemanticMatcher.calculateStyleSimilarity
  split_ifs with h
  · have h1 := (textSimilarity_bounds sm (String.intercalate ", " tags1)
      (String.intercalate ", " tags2) hsim).1
    exact_mod_cast jsRound_nonneg (by positivity)
  · exact (styleSimilarityFallback_bounds tags1 tags2).1

theorem scoreLocation_bounds (gigCity talentCity : Option String)
    (availability : List AvailEntry) :
    0 ≤ Engine.scoreLocation gigCity talentCity availability ∧
      Engine.scoreLocation gigCity talentCity availability ≤ 15 := by
  unfold Engine.scoreLocation
  cases gigCity with
  | none => norm_num
  | some g =>
      dsimp only
      split_ifs <;> norm_num

theorem scoreBudget_bounds (gigBudget talentMin talentMax : Option Rat) :
    0 ≤ Engine.scoreBudget gigBudget talentMin talentMax ∧
      Engine.scoreBudget gigBudget talentMin talentMax ≤ 15 := by
  simp only [Engine.scoreBudget]
  split_ifs <;> norm_num

theorem scoreSkills_bounds (gigCategory : Option String)
    (talentCategories talentSkills : List String) :
    0 ≤ Engine.scoreSkills gigCategory talentCategories talentSkills ∧
      Engine.scoreSkills gigCategory talentCategories talentSkills ≤ 15 := by
  unfold Engine.scoreSkills
  have hov : (0 : Rat) ≤ ((talentSkills.filter (fun sk =>
      (Engine.getRelevantSkills gigCategory).any (fun rel =>
        jsIncludes (jsToLower sk) (jsToLower rel)))).length : Rat) * 2 := by
    positivity
  have hm1 : jsMin ((talentSkills.filter (fun sk =>
      (Engine.getRelevantSkills gigCategory).any (fun rel =>
        jsIncludes (jsToLower sk) (jsToLower rel)))).length * 2 : Rat) 5 ≤ 5 :=
    jsMin_le_right _ _
  have hm0 : (0 : Rat) ≤ jsMin ((talentSkills.filter (fun sk =>
      (Engine.getRelevantSkills gigCategory).any (fun rel =>
        jsIncludes (jsToLower sk) (jsToLower rel)))).length * 2 : Rat) 5 :=
    jsMin_nonneg hov (by norm_num)
  split_ifs <;> constructor <;> simp only [] <;> linarith

theorem scoreExperience_bounds (lvl : Option String) (years : Option Rat) :
    0 ≤ Engine.scoreExperience lvl years ∧
      Engine.scoreExperience lvl years ≤ 10 := by
  simp only [Engine.scoreExperience]
  split_ifs <;> norm_num

theorem scoreAvailability_bounds (startDate : Option Rat)
    (availability : List AvailEntry) :
    0 ≤ Engine.scoreAvailability startDate availability ∧
      Engine.scoreAvailability startDate availability ≤ 5 := by
  unfold Engine.scoreAvailability
  cases startDate with
  | none => norm_num
  | some s =>
      dsimp only
      split_ifs <;> norm_num

theorem ruleBasedScore_bounds (g : Engine.Gig) (t : Engine.Talent) :
    0 ≤ Engine.calculateRuleBasedScore g t ∧
      Engine.calculateRuleBasedScore g t ≤ 60 := by
  have h1 := scoreLocation_bounds g.city t.city t.availability
  have h2 := scoreBudget_bounds g.budget t.budget_min t.budget_max
  have h3 := scoreSkills_bounds g.category t.categories t.skills
  have h4 := scoreExperience_bounds g.expectation_level t.experience_years
  have h5 := scoreAvailability_bounds g.start_date t.availability
  unfold Engine.calculateRuleBasedScore
  constructor
  · exact jsMin_nonneg (by linarith [h1.1, h2.1, h3.1, h4.1, h5.1]) (by norm_num)
  · exact jsMin_le_right _ _

theorem semanticScore_bounds (sm : SemanticMatcherState) (g : Engine.Gig)
    (t : Engine.Talent)
    (hsim : ∀ a b, 0 ≤ sm.textSim a b ∧ sm.textSim a b ≤ 1) :
    0 ≤ Engine.calculateSemanticScore sm g t ∧
      Engine.calculateSemanticScore sm g t ≤ 40 := by
  have hsty : 0 ≤ Engine.scoreStyleSimilarity sm g.style_tags t.style_tags := by
    unfold Engine.scoreStyleSimilarity
    cases g.style_tags with
    | none => cases t.style_tags <;> norm_num
    | some ts1 =>
        cases t.style_tags with
        | none => norm_num
        | some ts2 => exact styleSimilarity_nonneg sm ts1 ts2 hsim
  have hsem := textSimilarity_bounds sm
    (g.title ++ " " ++ g.brief_text.getD "")
    (t.name ++ " " ++ String.intercalate " " t.skills ++ " " ++
      String.intercalate " " t.portfolio_titles) hsim
  unfold Engine.calculateSemanticScore
  constructor
  · refine jsMin_nonneg ?_ (by norm_num)
    unfold Engine.scoreSemanticMatch
    linarith [hsem.1]
  · exact jsMin_le_right _ _

/-- The combined legacy score lies in `[0, 52]` (the factual range of the
0.6/0.4 combination of a `[0, 60]` rule total and a `[0, 40]` semantic
total, rounded to two decimals). -/
theorem matchScore_bounds (sm : SemanticMatcherState) (g : Engine.Gig)
    (t : Engine.Talent)
    (hsim : ∀ a b, 0 ≤ sm.textSim a b ∧ sm.textSim a b ≤ 1) :
    0 ≤ Engine.calculateMatchScore sm g t ∧
      Engine.calculateMatchScore sm g t ≤ 52 := by
  obtain ⟨hr0, hr1⟩ := ruleBasedScore_bounds g t
  obtain ⟨hs0, hs1⟩ := semanticScore_bounds sm g t hsim
  unfold Engine.calculateMatchScore
  have hinner0 : (0 : Rat) ≤ (Engine.calculateRuleBasedScore g t * (6 / 10) +
      Engine.calculateSemanticScore sm g t * (4 / 10)) * 100 := by
    nlinarith
  have hinner1 : (Engine.calculateRuleBasedScore g t * (6 / 10) +
      Engine.calculateSemanticScore sm g t * (4 / 10)) * 100 ≤
      ((5200 : Int) : Rat) := by
    push_cast
    nlinarith
  constructor
  · have := jsRound_nonneg hinner0
    positivity
  · have h2 := jsRound_le hinner1
    have h3 : ((jsRound ((Engine.calculateRuleBasedScore g t * (6 / 10) +
        Engine.calculateSemanticScore sm g t * (4 / 10)) * 100) : Int) : Rat) ≤
        5200 := by
      exact_mod_cast h2
    linarith

/-- Concrete gig whose enhanced rule-based score exceeds 60: same city as the
talent, in-range budget, one matched requirement, one matched style tag. -/
def gigC2 : Enhanced.Gig :=
  ⟨some "Mumbai", some 50000, ["photo"], none, ["bold"], none⟩

/-- Concrete talent for the same instance: available, rating 5, matching
skill and style tag. -/
def talentC2 : Enhanced.Talent :=
  ⟨some "Mumbai", some 40000, some 60000, ["photo"], some 10, true,
    ["bold"], some 5, none⟩

theorem gigC2_location :
    Enhanced.calculateLocationCompatibility (some "Mumbai") (some "Mumbai") =
      1 := by
  norm_num [Enhanced.calculateLocationCompatibility, truthyStr, jsTrim,
    jsToLower]
  decide

theorem gigC2_budget :
    Enhanced.calculateBudgetAlignment (some 50000) (some 40000)
      (some 60000) = 1 := by
  norm_num [Enhanced.calculateBudgetAlignment, truthyNum]

theorem gigC2_skills :
    Enhanced.calculateSkillsMatch ["photo"] ["photo"] = 1 := by
  norm_num [Enhanced.calculateSkillsMatch]
  decide

theorem gigC2_experience :
    Enhanced.calculateExperienceMatch none (some 10) = 1 / 2 := by
  norm_num [Enhanced.calculateExperienceMatch, truthyStr]

theorem gigC2_style :
    Enhanced.calculateStyleSimilarity ["bold"] ["bold"] = 1 := by
  norm_num [Enhanced.calculateStyleSimilarity, jsMax]
  decide

/-- C2 counterexample: the claim says the rule-based component is capped at
its configured maximum of 60 points, but the enhanced engine caps its rule
total at 100 (`Math.min(100, score)` over factors worth 20 + 20 + 15 + 15 +
10 + 10 + 10 points), and on this ordinary gig/talent pair the rule-based
score is 92.5, exceeding the claimed cap. -/
theorem enhanced_rule_cap_counterexample :
    Enhanced.calculateRuleBasedScore gigC2 talentC2 = 185 / 2 ∧
      ¬ Enhanced.calculateRuleBasedScore gigC2 talentC2 ≤ 60 := by
  have h : Enhanced.calculateRuleBasedScore gigC2 talentC2 = 185 / 2 := by
    simp only [Enhanced.calculateRuleBasedScore, gigC2, talentC2]
    rw [gigC2_location, gigC2_budget, gigC2_skills, gigC2_experience,
      gigC2_style]
    norm_num [truthyNum, jsMin]
  refine ⟨h, ?_⟩
  rw [h]
  norm_num

/-- C2 (amended): for every input, both hybrid engines keep the combined
score within `[0, 100]` and cap the semantic component at 40; the legacy
engine caps its rule component at 60 (its combined score in fact never
exceeds 52), while the enhanced engine caps its rule component at 100, not
60, and clamps the weighted combination with
`Math.min(100, Math.max(0, total))`.  The legacy semantic bound assumes the
provider returns similarities in `[0, 1]`. -/
theorem hybrid_score_bounds (sm : SemanticMatcherState) (g : Engine.Gig)
    (t : Engine.Talent) (g2 : Enhanced.Gig) (t2 : Enhanced.Talent)
    (hsim : ∀ a b, 0 ≤ sm.textSim a b ∧ sm.textSim a b ≤ 1) :
    (0 ≤ Engine.calculateMatchScore sm g t ∧
      Engine.calculateMatchScore sm g t ≤ 100) ∧
    Engine.calculateRuleBasedScore g t ≤ 60 ∧
    Engine.calculateSemanticScore sm g t ≤ 40 ∧
    (0 ≤ Enhanced.calculateEnhancedMatchScore g2 t2 sm ∧
      Enhanced.calculateEnhancedMatchScore g2 t2 sm ≤ 100) ∧
    Enhanced.calculateSemanticScore g2 t2 sm ≤ 40 ∧
    Enhanced.calculateRuleBasedScore g2 t2 ≤ 100 := by
  obtain ⟨hm0, hm1⟩ := matchScore_bounds sm g t hsim
  refine ⟨⟨hm0, by linarith⟩, (ruleBasedScore_bounds g t).2,
    (semanticScore_bounds sm g t hsim).2, ⟨?_, ?_⟩, ?_, ?_⟩
  · exact jsMin_nonneg (by norm_num) (le_jsMax_left 0 _)
  · exact jsMin_le_left _ _
  · unfold Enhanced.calculateSemanticScore
    split_ifs <;> first
      | exact jsMin_le_left _ _
      | norm_num
  · exact jsMin_le_left _ _

/-- Provider state used by the score-bound witness: unavailable, constant
zero similarity. -/
def smW : SemanticMatcherState := ⟨false, fun _ _ => 0⟩

/-- Legacy gig used by the score-bound witness. -/
def gigW : Engine.Gig := ⟨some "Mumbai", some 1000, some "Photography",
  some "basic", none, none, "Shoot", none⟩

/-- Legacy talent used by the score-bound witness. -/
def talentW : Engine.Talent := ⟨some "Mumbai", some 500, some 2000,
  ["Photography"], ["camera"], some 1, [], none, "Asha", []⟩

theorem hybrid_score_bounds_witness :
    (∀ a b, 0 ≤ smW.textSim a b ∧ smW.textSim a b ≤ 1) ∧
    ((0 ≤ Engine.calculateMatchScore smW gigW talentW ∧
      Engine.calculateMatchScore smW gigW talentW ≤ 100) ∧
    Engine.calculateRuleBasedScore gigW talentW ≤ 60 ∧
    Engine.calculateSemanticScore smW gigW talentW ≤ 40 ∧
    (0 ≤ Enhanced.calculateEnhancedMatchScore gigC2 talentC2 smW ∧
      Enhanced.calculateEnhancedMatchScore gigC2 talentC2 smW ≤ 100) ∧
    Enhanced.calculateSemanticScore gigC2 talentC2 smW ≤ 40 ∧
    Enhanced.calculateRuleBasedScore gigC2 talentC2 ≤ 100) := by
  have hs : ∀ a b, 0 ≤ smW.textSim a b ∧ smW.textSim a b ≤ 1 := by
    intro a b
    constructor <;> norm_num [smW]
  exact ⟨hs, hybrid_score_bounds smW gigW talentW gigC2 talentC2 hs⟩

/-- An unavailable provider state. -/
def smU : SemanticMatcherState := ⟨false, fun _ _ => 0⟩

/-- A second unavailable provider state with a different similarity
function. -/
def smU2 : SemanticMatcherState := ⟨false, fun _ _ => 1⟩

/-- An available provider state. -/
def smA : SemanticMatcherState := ⟨true, fun _ _ => 1⟩

/-- Gig without style tags or description, for the degradation-visibility
counterexample. -/
def gigC7 : Enhanced.Gig :=
  ⟨some "Mumbai", some 50000, ["photo"], none, [], none⟩

/-- Talent without style tags or bio, for the same counterexample. -/
def talentC7 : Enhanced.Talent :=
  ⟨some "Mumbai", some 40000, some 60000, ["photo"], some 10, true,
    [], some 5, none⟩

/-- C7 counterexample: the enhanced engine's outputs carry no
semantic-unavailable flag at all — on this gig/talent pair an unavailable
provider and an available provider produce byte-identical results (semantic
score, combined score, and the rounded entry score), so the degradation is
silently absorbed rather than made visible in the breakdown as the claim
requires. -/
theorem semantic_unavailable_not_flagged :
    smU.isAvailable = false ∧ smA.isAvailable = true ∧
    Enhanced.calculateSemanticScore gigC7 talentC7 smU = 0 ∧
    Enhanced.calculateSemanticScore gigC7 talentC7 smA = 0 ∧
    Enhanced.calculateEnhancedMatchScore gigC7 talentC7 smU =
      Enhanced.calculateEnhancedMatchScore gigC7 talentC7 smA ∧
    Enhanced.matchEntryScore gigC7 talentC7 smU =
      Enhanced.matchEntryScore gigC7 talentC7 smA := by
  have hU : Enhanced.calculateSemanticScore gigC7 talentC7 smU = 0 := by
    simp [Enhanced.calculateSemanticScore, smU]
  have hA : Enhanced.calculateSemanticScore gigC7 talentC7 smA = 0 := by
    norm_num [Enhanced.calculateSemanticScore, smA, gigC7, talentC7,
      truthyStr, jsMin]
  have hE : Enhanced.calculateEnhancedMatchScore gigC7 talentC7 smU =
      Enhanced.calculateEnhancedMatchScore gigC7 talentC7 smA := by
    unfold Enhanced.calculateEnhancedMatchScore
    rw [hU, hA]
  refine ⟨rfl, rfl, hU, hA, hE, ?_⟩
  unfold Enhanced.matchEntryScore
  rw [hE]

/-- C7 (amended): when the provider reports unavailable, scoring indeed does
not fail, but the degradation is invisible.  In the enhanced engine the
semantic contribution is exactly 0 and the combined score degrades to the
clamped rule-only combination; in the legacy engine the semantic path falls
back to lexical similarity, so the result is independent of the provider's
similarity function.  Neither engine records any flag. -/
theorem semantic_degradation_behavior (g2 : Enhanced.Gig)
    (t2 : Enhanced.Talent) (g : Engine.Gig) (t : Engine.Talent)
    (sm sm' : SemanticMatcherState) (h : sm.isAvailable = false)
    (h' : sm'.isAvailable = false) :
    Enhanced.calculateSemanticScore g2 t2 sm = 0 ∧
    Enhanced.calculateEnhancedMatchScore g2 t2 sm =
      jsMin 100 (jsMax 0 (Enhanced.calculateRuleBasedScore g2 t2 *
        (6 / 10))) ∧
    Engine.calculateMatchScore sm g t = Engine.calculateMatchScore sm' g t
    := by
  have h0 : Enhanced.calculateSemanticScore g2 t2 sm = 0 := by
    simp [Enhanced.calculateSemanticScore, h]
  have hts : ∀ a b, SemanticMatcher.calculateTextSimilarity sm a b =
      SemanticMatcher.calculateTextSimilarity sm' a b := by
    intro a b
    simp [SemanticMatcher.calculateTextSimilarity, h, h']
  have hstyle : ∀ a b, SemanticMatcher.calculateStyleSimilarity sm a b =
      SemanticMatcher.calculateStyleSimilarity sm' a b := by
    intro a b
    simp [SemanticMatcher.calculateStyleSimilarity, h, h']
  have hsem : Engine.calculateSemanticScore sm g t =
      Engine.calculateSemanticScore sm' g t := by
    unfold Engine.calculateSemanticScore Engine.scoreSemanticMatch
      Engine.scoreStyleSimilarity
    cases g.style_tags <;> cases t.style_tags <;> simp [hstyle, hts]
  refine ⟨h0, ?_, ?_⟩
  · unfold Enhanced.calculateEnhancedMatchScore
    rw [h0]
    norm_num
  · unfold Engine.calculateMatchScore
    rw [hsem]

theorem semantic_degradation_behavior_witness :
    smU.isAvailable = false ∧ smU2.isAvailable = false ∧
    (Enhanced.calculateSemanticScore gigC2 talentC2 smU = 0 ∧
    Enhanced.calculateEnhancedMatchScore gigC2 talentC2 smU =
      jsMin 100 (jsMax 0 (Enhanced.calculateRuleBasedScore gigC2 talentC2 *
        (6 / 10))) ∧
    Engine.calculateMatchScore smU gigW talentW =
      Engine.calculateMatchScore smU2 gigW talentW) :=
  ⟨rfl, rfl,
    semantic_degradation_behavior gigC2 talentC2 gigW talentW smU smU2
      rfl rfl⟩
